import Mathlib

/-!
Verification of the MNA (Modified Nodal Analysis) engine of PyEEKit.

The development shallowly embeds `src/ee_tools/nodes.py`,
`src/ee_tools/components.py` and `src/circuits/circuit.py`.
Python floats are modelled as exact rationals (ℚ); none of the verified
properties depends on floating-point rounding.  Python exceptions are
modelled with `Except`, and the in-place mutation of voltage-source
currents is modelled by threading the circuit state through `analyze`.
-/

/-- A connection point in a circuit (`nodes.py`, class `Node`):
identity is the string label, equality/hash by label. -/
structure Node where
  id : String
deriving DecidableEq, Repr

/-- The closed set of component kinds of `components.py`, with the numeric
attributes each class stores.  `voltageSource` carries both the fixed
voltage and the mutable `current` attribute (set during analysis). -/
inductive ComponentKind where
  | resistor (resistance power_rating tolerance : ℚ)
  | voltageSource (voltage current : ℚ)
  | currentSource (current : ℚ)
  | gnd
  | capacitor (capacitance voltage_rating tolerance : ℚ)
  | inductor (inductance current_rating tolerance : ℚ)
deriving DecidableEq, Repr

/-- A connected component (`components.py`, class `Component`): a name,
a kind, and the terminal pair fixed at connection time.  For a `Ground`
component the single connected node is stored in `node_plus`
(`Ground.connect` stores one node). -/
structure Component where
  name : String
  kind : ComponentKind
  node_plus : Option Node := none
  node_minus : Option Node := none
deriving DecidableEq, Repr

/-- The Python exceptions that can escape the analysis pipeline. -/
inductive PyError where
  | valueError (msg : String)
  | notImplementedError
  | linAlgError
deriving DecidableEq, Repr

/-- `Component.get_nodes` / `Ground.get_nodes`: a ground returns its single
node (or `[]` when unconnected); every other component returns the ordered
terminal pair, entries possibly `None`. -/
def Component.get_nodes (comp : Component) : List (Option Node) :=
  match comp.kind with
  | .gnd => match comp.node_plus with
            | some n => [some n]
            | none => []
  | _ => [comp.node_plus, comp.node_minus]

/-- Lookup of an optional node in the node-voltage dictionary
(`node in node_voltages` followed by `node_voltages[node]`); a `None`
terminal is never a dictionary key. -/
def nvFind : List (Node × ℚ) → Option Node → Option ℚ
  | _, none => none
  | [], some _ => none
  | (n, v) :: rest, some t => if n = t then some v else nvFind rest (some t)

/-- `get_voltage` dispatch: a voltage source returns its fixed voltage, a
ground returns 0, everything else returns
`V(node_plus) − V(node_minus)` when both terminals are in the mapping and
0 otherwise (base `Component.get_voltage`; `Capacitor.get_voltage` only
adds a logged rating warning). -/
def Component.get_voltage (comp : Component) (nv : List (Node × ℚ)) : ℚ :=
  match comp.kind with
  | .voltageSource v _ => v
  | .gnd => 0
  | _ =>
    match nvFind nv comp.node_plus, nvFind nv comp.node_minus with
    | some vp, some vm => vp - vm
    | _, _ => 0

/-- `get_current` dispatch: Ohm's law for resistors, the stored (solved)
current for voltage sources, the fixed magnitude for current sources, 0
for ground; `Capacitor` and `Inductor` do not override the base method,
which raises `NotImplementedError`. -/
def Component.get_current (comp : Component) (nv : List (Node × ℚ)) :
    Except PyError ℚ :=
  match comp.kind with
  | .resistor r _ _ => .ok (comp.get_voltage nv / r)
  | .voltageSource _ i => .ok i
  | .currentSource i => .ok i
  | .gnd => .ok 0
  | _ => .error .notImplementedError

/-- `get_conductance` for the kinds whose Python value is a finite float:
`1/R` for resistors, 0 for sources and capacitors.  (Python returns the
IEEE infinity for `Ground` and `Inductor`; that value has no ℚ
counterpart and is never read by the assembler, which takes conductances
only from the resistor list, so those two kinds are given 0 here and are
out of scope of every theorem below.) -/
def Component.get_conductance (comp : Component) : ℚ :=
  match comp.kind with
  | .resistor r _ _ => 1 / r
  | _ => 0

/-- `Component.kind` projection tests used by `add_component`'s
`isinstance` dispatch. -/
def ComponentKind.isResistor : ComponentKind → Bool
  | .resistor _ _ _ => true
  | _ => false

def ComponentKind.isVoltageSource : ComponentKind → Bool
  | .voltageSource _ _ => true
  | _ => false

def ComponentKind.isCurrentSource : ComponentKind → Bool
  | .currentSource _ => true
  | _ => false

/-- The circuit graph (`circuit.py`, class `Circuit`).  `nodes` is the
node registry in insertion order (Python dict preserves insertion order);
`ground` is the designated reference node.  The per-kind lists
`self.resistors`, `self.voltage_sources`, `self.current_sources` are kept
in registration order by `add_component`, which is exactly the order of
the corresponding kinds inside `components`; they are therefore derived
here by filtering (`resistorsOf` etc. below). -/
structure Circuit where
  name : String
  components : List Component
  nodes : List Node
  ground : Option Node
deriving DecidableEq, Repr

/-- `Circuit.add_node`: register a node id on first use. -/
def Circuit.add_node (c : Circuit) (nid : String) : Circuit :=
  if (⟨nid⟩ : Node) ∈ c.nodes then c
  else { c with nodes := c.nodes ++ [⟨nid⟩] }

/-- `Circuit.add_component`: register both terminals, connect the
component, and append it to `components` (and implicitly to its per-kind
list, recovered by filtering). -/
def Circuit.add_component (c : Circuit) (comp : Component)
    (node_plus_id node_minus_id : String) : Circuit :=
  let c1 := (c.add_node node_plus_id).add_node node_minus_id
  { c1 with components := c1.components ++
      [{ comp with node_plus := some ⟨node_plus_id⟩,
                   node_minus := some ⟨node_minus_id⟩ }] }

/-- `Circuit.add_ground`: register the node, connect the ground marker to
it, append the marker to `components` and set the ground reference. -/
def Circuit.add_ground (c : Circuit) (gname : String) (nid : String) :
    Circuit :=
  let c1 := c.add_node nid
  { c1 with
      components := c1.components ++
        [{ name := gname, kind := .gnd, node_plus := some ⟨nid⟩ }],
      ground := some ⟨nid⟩ }

/-- `self.resistors`: the registration-ordered resistor list. -/
def resistorsOf (c : Circuit) : List Component :=
  c.components.filter (fun comp => comp.kind.isResistor)

/-- `self.current_sources`: the registration-ordered current-source
list. -/
def current_sourcesOf (c : Circuit) : List Component :=
  c.components.filter (fun comp => comp.kind.isCurrentSource)

/-- `self.voltage_sources`: the registration-ordered voltage-source
list. -/
def voltage_sourcesOf (c : Circuit) : List Component :=
  c.components.filter (fun comp => comp.kind.isVoltageSource)

/-- The data the voltage-source stamping loop reads from each registered
voltage source: terminal pair and fixed voltage (lines 109–111 of
`circuit.py`). -/
def vsData (l : List Component) : List (Option Node × Option Node × ℚ) :=
  (l.filter (fun comp => comp.kind.isVoltageSource)).map
    (fun comp => (comp.node_plus, comp.node_minus,
      match comp.kind with
      | .voltageSource v _ => v
      | _ => 0))

/-- First position of a node in a list (the `node_index` dictionary built
from `nodes_to_solve`); an absent node is mapped to the list length
(out of range — Python would raise `KeyError`, which cannot happen for
circuits whose terminals are all registered, the only ones any theorem
below touches). -/
def idxOfN : List Node → Node → Nat
  | [], _ => 0
  | n :: rest, t => if n = t then 0 else idxOfN rest t + 1

/-- `node_index` lookup lifted to optional terminals. -/
def oidx (ns : List Node) : Option Node → Nat
  | some n => idxOfN ns n
  | none => ns.length

/-- `nodes_to_solve`: all registered nodes except ground, in registration
order (line 73 of `circuit.py`). -/
def nodes_to_solve (c : Circuit) : List Node :=
  c.nodes.filter (fun n => some n ≠ c.ground)

/-- Dense matrices are total functions; entries outside `total_size` are
never read back. -/
abbrev Mat := Nat → Nat → ℚ

abbrev Vec := Nat → ℚ

/-- Single matrix-entry assignment `G[i, j] = v`. -/
def updG (G : Mat) (i j : Nat) (v : ℚ) : Mat :=
  fun a b => if a = i ∧ b = j then v else G a b

/-- Single vector-entry assignment `I[i] = v`. -/
def updV (I : Vec) (i : Nat) (v : ℚ) : Vec :=
  fun a => if a = i then v else I a

/-- The body of the resistor stamping loop (lines 82–96 of `circuit.py`)
for one resistor: `G[i,i] += g`, `G[j,j] += g` for non-ground terminals
and `G[i,j] -= g`, `G[j,i] -= g` when neither terminal is ground. -/
def stampOneResistor (g : Option Node) (ns : List Node) (G : Mat)
    (r : Component) : Mat :=
  let gc := r.get_conductance
  let i := oidx ns r.node_plus
  let j := oidx ns r.node_minus
  let G1 := if r.node_plus ≠ g then updG G i i (G i i + gc) else G
  let G2 := if r.node_minus ≠ g then updG G1 j j (G1 j j + gc) else G1
  if r.node_plus ≠ g ∧ r.node_minus ≠ g then
    let G3 := updG G2 i j (G2 i j - gc)
    updG G3 j i (G3 j i - gc)
  else G2

/-- Resistor stamping loop over the registered resistor list. -/
def stampResistorsG (g : Option Node) (ns : List Node) (G0 : Mat)
    (rs : List Component) : Mat :=
  rs.foldl (stampOneResistor g ns) G0

/-- The body of the current-source stamping loop (lines 98–107 of
`circuit.py`) for one source: `I[i] -= current` for a non-ground plus
terminal, `I[j] += current` for a non-ground minus terminal. -/
def stampOneCSource (g : Option Node) (ns : List Node) (I : Vec)
    (comp : Component) : Vec :=
  let cur := match comp.kind with
             | .currentSource i => i
             | _ => 0
  let i := oidx ns comp.node_plus
  let I1 := if comp.node_plus ≠ g then updV I i (I i - cur) else I
  let j := oidx ns comp.node_minus
  if comp.node_minus ≠ g then updV I1 j (I1 j + cur) else I1

/-- Current-source stamping loop over the registered current-source
list. -/
def stampCSourcesI (g : Option Node) (ns : List Node) (I0 : Vec)
    (cs : List Component) : Vec :=
  cs.foldl (stampOneCSource g ns) I0

/-- Voltage-source stamping loop (lines 109–123 of `circuit.py`), with
the running equation index `e = n_nodes + vs_index`: set
`G[i,e] = 1`, `G[e,i] = 1` for a non-ground plus terminal, then
`G[j,e] = -1`, `G[e,j] = -1` for a non-ground minus terminal, then
`I[e] = voltage`. -/
def stampVSrcs (g : Option Node) (ns : List Node) :
    Nat → List (Option Node × Option Node × ℚ) → Mat × Vec → Mat × Vec
  | _, [], GI => GI
  | e, (p, m, v) :: rest, (G, I) =>
    let i := oidx ns p
    let G1 := if p ≠ g then updG (updG G i e 1) e i 1 else G
    let j := oidx ns m
    let G2 := if m ≠ g then updG (updG G1 j e (-1)) e j (-1) else G1
    stampVSrcs g ns (e + 1) rest (G2, updV I e v)

/-- The value `build_mna_matrices` returns (its matrices together with
the local ordering data the rest of the pipeline reuses). -/
structure MNASystem where
  G : Mat
  Ivec : Vec
  node_order : List Node
  n_nodes : Nat
  n_vsources : Nat
  total_size : Nat

/-- `Circuit.build_mna_matrices` (lines 71–125 of `circuit.py`): allocate
zero `G` and `I` of size `n_nodes + n_vsources`, then stamp resistors,
current sources and voltage sources in that order. -/
def build_mna_matrices (c : Circuit) : MNASystem :=
  let ns := nodes_to_solve c
  let vd := vsData c.components
  let GI := stampVSrcs c.ground ns ns.length vd
      (stampResistorsG c.ground ns (fun _ _ => 0) (resistorsOf c),
       stampCSourcesI c.ground ns (fun _ => 0) (current_sourcesOf c))
  { G := GI.1, Ivec := GI.2, node_order := ns, n_nodes := ns.length,
    n_vsources := vd.length, total_size := ns.length + vd.length }

/-- Number of element terminals touching a registered node, terminals of
`Ground` markers not counted (lines 57–62 of `circuit.py`). -/
def connection_count (c : Circuit) (n : Node) : Nat :=
  c.components.foldl (fun acc comp =>
    if comp.kind = .gnd then acc
    else acc + comp.get_nodes.countP (fun t => t = some n)) 0

/-- The non-ground registered nodes touched by fewer than two element
terminals, in registry order — exactly the list
`Circuit.validate_circuit` logs in its `FloatingNodeWarning` message
(lines 64–67 of `circuit.py`). -/
def floating_nodes (c : Circuit) : List Node :=
  c.nodes.filter (fun n => connection_count c n < 2 ∧ some n ≠ c.ground)

/-- `Circuit.validate_circuit` (lines 48–69): raise
`ValueError("Circuit must have a ground reference")` when no ground is
registered, then raise on the first component with a disconnected
terminal; floating nodes (`floating_nodes`) are only logged as a warning
and the method returns `True`. -/
def validate_circuit (c : Circuit) : Except PyError Bool :=
  match c.ground with
  | none => .error (.valueError "Circuit must have a ground reference")
  | some _ =>
    match c.components.find? (fun comp => comp.get_nodes.any
        (fun t => t.isNone)) with
    | some comp => .error (.valueError
        ("Component " ++ comp.name ++ " has unconnected nodes"))
    | none => .ok true

/-- Dot product of coefficient and solution lists. -/
def dotL (a b : List ℚ) : ℚ :=
  (List.zipWith (fun x y => x * y) a b).foldl (fun x y => x + y) 0

/-- Move the first row with a nonzero leading coefficient to the front. -/
def pickPivot : List (List ℚ × ℚ) →
    Option ((List ℚ × ℚ) × List (List ℚ × ℚ))
  | [] => none
  | (r, b) :: rest =>
    if r.headD 0 ≠ 0 then some ((r, b), rest)
    else match pickPivot rest with
      | none => none
      | some (p, rest2) => some (p, (r, b) :: rest2)

/-- Subtract the multiple of the pivot row that clears the leading
coefficient of `row`, dropping the leading column. -/
def elimRow (pr : List ℚ) (pb : ℚ) (row : List ℚ × ℚ) : List ℚ × ℚ :=
  let f := row.1.headD 0 / pr.headD 0
  (List.zipWith (fun x y => x - f * y) row.1.tail pr.tail, row.2 - f * pb)

/-- Gaussian elimination with back-substitution on an augmented square
system, `none` when no pivot is available (no unique solution). -/
def gaussAux : Nat → List (List ℚ × ℚ) → Option (List ℚ)
  | 0, rows => if rows.isEmpty then some [] else none
  | fuel + 1, rows =>
    match pickPivot rows with
    | none => none
    | some ((pr, pb), rest) =>
      match gaussAux fuel (rest.map (elimRow pr pb)) with
      | none => none
      | some xs => some (((pb - dotL pr.tail xs) / pr.headD 0) :: xs)

/-- A model of the external linear solve: it consumes the assembled
matrix, vector and size and either produces a solution vector of that
size or signals a linear-algebra failure. -/
abbrev Solver := Mat → Vec → Nat → Except PyError (List ℚ)

/-- The length-`k` ascending index list `i, i+1, …` used to materialise
the dense rows of the assembled system. -/
def rangeAsc : Nat → Nat → List Nat
  | _, 0 => []
  | i, k + 1 => i :: rangeAsc (i + 1) k

/-- Modelled from the spec: `np.linalg.lstsq` (numpy — not part of this
repository).  Per §4.2 of the spec, "when the system is exactly
well-posed it must reduce to the exact solution"; this model computes
that exact solution by Gaussian elimination.  The spec's minimum-norm
fallback for underconstrained systems is kept abstract (see
`SolverContract`); systems without a unique solution are mapped to a
linear-algebra failure here and no theorem below evaluates this model on
such a system. -/
def npLstsq : Solver := fun G I n =>
  match gaussAux n ((rangeAsc 0 n).map
      (fun i => ((rangeAsc 0 n).map (G i), I i))) with
  | some x => .ok x
  | none => .error .linAlgError

/-- The solved entries `node_voltages[node] = solution[index]` of
`solve_mna` (lines 137–138), in `node_index` order: the node at position
`i` of `nodes_to_solve` reads `solution[i]`. -/
def nv_entries : Nat → List Node → List ℚ → List (Node × ℚ)
  | _, [], _ => []
  | i, n :: rest, sol => (n, sol.getD i 0) :: nv_entries (i + 1) rest sol

/-- The node-voltage dictionary built by `solve_mna` (lines 135–138):
ground first with exactly 0.0, then each solved node in `node_index`
order (ground is not in `node_index`, so its entry is never
overwritten). -/
def mk_node_voltages (g : Node) (ns : List Node) (sol : List ℚ) :
    List (Node × ℚ) :=
  (g, 0) :: nv_entries 0 ns sol

/-- The side-channel mutation of `solve_mna` (lines 140–142): the `k`-th
registered voltage source gets `current := solution[n_nodes + k]`.
Walking `components` while counting voltage sources updates exactly the
objects `self.voltage_sources` aliases. -/
def set_vs_currents : List Component → List ℚ → Nat → List Component
  | [], _, _ => []
  | comp :: rest, sol, k =>
    match comp.kind with
    | .voltageSource v _ =>
      { comp with kind := .voltageSource v (sol.getD k 0) } ::
        set_vs_currents rest sol (k + 1)
    | _ => comp :: set_vs_currents rest sol k

/-- The per-component record `{'voltage': .., 'current': .., 'power': ..}`. -/
structure CompResult where
  voltage : ℚ
  current : ℚ
  power : ℚ
deriving DecidableEq, Repr

/-- `Circuit.calculate_component_values` (lines 146–161): skip `Ground`
markers; for every other component record voltage, current and
`power = voltage * current`; the first `NotImplementedError` from a
`get_current` call aborts the pass. -/
def calc_results (l : List Component) (nv : List (Node × ℚ)) :
    Except PyError (List (String × CompResult)) :=
  match l with
  | [] => .ok []
  | comp :: rest =>
    if comp.kind = .gnd then calc_results rest nv
    else
      match comp.get_current nv with
      | .error e => .error e
      | .ok cur =>
        match calc_results rest nv with
        | .error e => .error e
        | .ok rs =>
          .ok ((comp.name,
            { voltage := comp.get_voltage nv, current := cur,
              power := comp.get_voltage nv * cur }) :: rs)

/-- The circuit after `solve_mna` stored the solved branch currents on
the voltage sources (`n_nodes = len(node_index)` in line 134 equals the
assembled `n_nodes`). -/
def with_solved_currents (c : Circuit) (sol : List ℚ) : Circuit :=
  { c with components :=
      set_vs_currents c.components sol (build_mna_matrices c).n_nodes }

/-- The tail of the pipeline once the solver has produced `sol`
(lines 134–144 and 146–161): mutate the voltage-source currents, build
the node-voltage dictionary, extract per-component values.  The final
circuit state is returned alongside the outcome: the currents stay
mutated even when extraction raises. -/
def extract_results (c : Circuit) (g : Node) (sol : List ℚ) :
    Except PyError (List (Node × ℚ) × List (String × CompResult)) ×
      Circuit :=
  let c2 := with_solved_currents c sol
  let nv := mk_node_voltages g (nodes_to_solve c) sol
  match calc_results c2.components nv with
  | .error e => (.error e, c2)
  | .ok res => (.ok (nv, res), c2)

/-- The pipeline `analyze` runs after validation succeeded
(lines 166–168): assemble, solve (mapping a linear-algebra failure to
`ValueError("Circuit may be invalid or underconstrained")`, line 132),
then extract.  The `none` ground branch is unreachable after validation
and repeats the validation error. -/
def analyze_post (solver : Solver) (c : Circuit) :
    Except PyError (List (Node × ℚ) × List (String × CompResult)) ×
      Circuit :=
  match c.ground with
  | none => (.error (.valueError "Circuit must have a ground reference"), c)
  | some g =>
    let sys := build_mna_matrices c
    match solver sys.G sys.Ivec sys.total_size with
    | .error _ =>
      (.error (.valueError "Circuit may be invalid or underconstrained"), c)
    | .ok sol => extract_results c g sol

/-- `Circuit.analyze` (lines 163–172) with an explicit solver: validate,
then run the rest of the pipeline; any exception aborts the call (the
Python `except` clause only logs and re-raises). -/
def analyzeWith (solver : Solver) (c : Circuit) :
    Except PyError (List (Node × ℚ) × List (String × CompResult)) ×
      Circuit :=
  match validate_circuit c with
  | .error e => (.error e, c)
  | .ok _ => analyze_post solver c

/-- `Circuit.analyze` with the modelled `np.linalg.lstsq`. -/
def analyze (c : Circuit) :
    Except PyError (List (Node × ℚ) × List (String × CompResult)) ×
      Circuit :=
  analyzeWith npLstsq c

/-- An empty circuit: no components, no nodes, no ground. -/
def emptyC : Circuit :=
  { name := "empty", components := [], nodes := [], ground := none }

/-- The series voltage divider of the spec's §8: `V1 = 10V` across
n1–gnd, `R1 = 1000Ω` n1–n2, `R2 = 1000Ω` n2–gnd, ground at gnd
(resistor ratings left at the Python defaults 0.25 and 0.05). -/
def dividerC : Circuit :=
  ((((Circuit.mk "divider" [] [] none).add_component
      { name := "V1", kind := .voltageSource 10 0 } "n1" "gnd").add_component
      { name := "R1", kind := .resistor 1000 (1/4) (1/20) } "n1" "n2").add_component
      { name := "R2", kind := .resistor 1000 (1/4) (1/20) } "n2" "gnd").add_ground
      "GND" "gnd"

/-- The current-source circuit of the spec's §8: `I1 = 0.01A` from n1 to
gnd, `R1 = 500Ω` n1–gnd, ground at gnd. -/
def csourceC : Circuit :=
  (((Circuit.mk "isrc" [] [] none).add_component
      { name := "I1", kind := .currentSource (1/100) } "n1" "gnd").add_component
      { name := "R1", kind := .resistor 500 (1/4) (1/20) } "n1" "gnd").add_ground
      "GND" "gnd"

/-- A fully connected circuit with a valid ground that contains a
capacitor: `V1 = 10V` n1–gnd, `R1 = 1000Ω` n1–gnd, `C1 = 1F` n1–gnd. -/
def capC : Circuit :=
  ((((Circuit.mk "cap" [] [] none).add_component
      { name := "V1", kind := .voltageSource 10 0 } "n1" "gnd").add_component
      { name := "R1", kind := .resistor 1000 (1/4) (1/20) } "n1" "gnd").add_component
      { name := "C1", kind := .capacitor 1 (1/4) (1/20) } "n1" "gnd").add_ground
      "GND" "gnd"

/-- A voltage source registered with both terminals on the same node
(`add_component(vs, "n1", "n1")` is accepted by the code). -/
def selfLoopC : Circuit :=
  ((Circuit.mk "loop" [] [] none).add_component
      { name := "V1", kind := .voltageSource 5 0 } "n1" "n1").add_ground
      "GND" "gnd"

/-- A circuit with a floating node n2 (touched by one terminal) whose
analysis completes: `V1 = 10V` n1–gnd, `R1 = 1000Ω` n1–n2. -/
def floatOkC : Circuit :=
  (((Circuit.mk "floatok" [] [] none).add_component
      { name := "V1", kind := .voltageSource 10 0 } "n1" "gnd").add_component
      { name := "R1", kind := .resistor 1000 (1/4) (1/20) } "n1" "n2").add_ground
      "GND" "gnd"

/-- A circuit with a floating node n2 and a capacitor: `V1 = 10V` n1–gnd,
`R1 = 1000Ω` n1–gnd, `C1 = 1F` n1–gnd, `R2 = 1000Ω` n1–n2. -/
def floatCapC : Circuit :=
  (((((Circuit.mk "floatcap" [] [] none).add_component
      { name := "V1", kind := .voltageSource 10 0 } "n1" "gnd").add_component
      { name := "R1", kind := .resistor 1000 (1/4) (1/20) } "n1" "gnd").add_component
      { name := "C1", kind := .capacitor 1 (1/4) (1/20) } "n1" "gnd").add_component
      { name := "R2", kind := .resistor 1000 (1/4) (1/20) } "n1" "n2").add_ground
      "GND" "gnd"
/-- A 3 V source between the two non-ground nodes n1 and n2, ground on
a third node gnd. -/
def vsMidC : Circuit :=
  ((Circuit.mk "vsmid" [] [] none).add_component
      { name := "V1", kind := .voltageSource 3 0 } "n1" "n2").add_ground
      "GND" "gnd"

/-- The additive contribution of a single resistor stamp to entry
`(a, b)` of `G`: `+g` on each non-ground diagonal, `−g` on the two
coupling entries when neither terminal is ground (the four assignments
of lines 86–96 of `circuit.py`, written as one sum). -/
def resContrib (g : Option Node) (ns : List Node) (r : Component)
    (a b : Nat) : ℚ :=
  let gc := r.get_conductance
  let i := oidx ns r.node_plus
  let j := oidx ns r.node_minus
  (if r.node_plus ≠ g ∧ a = i ∧ b = i then gc else 0)
    + (if r.node_minus ≠ g ∧ a = j ∧ b = j then gc else 0)
    + (if r.node_plus ≠ g ∧ r.node_minus ≠ g ∧ a = i ∧ b = j then -gc
       else 0)
    + (if r.node_plus ≠ g ∧ r.node_minus ≠ g ∧ a = j ∧ b = i then -gc
       else 0)

/-- The additive contribution of a single current-source stamp to entry
`a` of `I`: `−i` at the non-ground plus terminal, `+i` at the non-ground
minus terminal (lines 102–107 of `circuit.py`). -/
def csContrib (g : Option Node) (ns : List Node) (comp : Component)
    (a : Nat) : ℚ :=
  let cur := match comp.kind with
             | .currentSource i => i
             | _ => 0
  (if comp.node_plus ≠ g ∧ a = oidx ns comp.node_plus then -cur else 0)
    + (if comp.node_minus ≠ g ∧ a = oidx ns comp.node_minus then cur
       else 0)

/-- Every terminal of every component is connected and resolves to a
registered node — the invariant `add_component` establishes. -/
def terminals_registered (c : Circuit) : Bool :=
  c.components.all (fun comp => comp.get_nodes.all (fun t =>
    match t with
    | some n => n ∈ c.nodes
    | none => false))

/-- Every terminal of every component is connected (no `None` entry) —
exactly the condition the second validation loop checks. -/
def terminals_connected (c : Circuit) : Bool :=
  c.components.all (fun comp => comp.get_nodes.all (fun t => t.isSome))

/-- Kinds whose `get_current` does not raise: `Capacitor` and `Inductor`
inherit the base method, which raises `NotImplementedError`. -/
def ComponentKind.implements_dc : ComponentKind → Bool
  | .capacitor _ _ _ => false
  | .inductor _ _ _ => false
  | _ => true

/-- The circuit contains a `Capacitor` or an `Inductor`. -/
def has_reactive (c : Circuit) : Bool :=
  c.components.any (fun comp => !comp.kind.implements_dc)

/-- The same circuit with every resistor removed from the component
list (node registry, ground and all other components untouched). -/
def without_resistors (c : Circuit) : Circuit :=
  { c with
      components := c.components.filter (fun comp => !comp.kind.isResistor) }

/-- Squared Euclidean norm of a rational vector. -/
def sqNormL (v : List ℚ) : ℚ := (v.map (fun a => a * a)).sum

/-- The residual `G·x − b` of a candidate solution, materialised on the
first `n` coordinates. -/
def residL (n : Nat) (G : Mat) (b : Vec) (x : List ℚ) : List ℚ :=
  (rangeAsc 0 n).map (fun i => dotL ((rangeAsc 0 n).map (G i)) x - b i)

/-- `x` minimises the residual norm of the `n`-sized system `(G, b)`
among vectors of length `n`. -/
def IsLeastSquares (n : Nat) (G : Mat) (b : Vec) (x : List ℚ) : Prop :=
  x.length = n ∧ ∀ y : List ℚ, y.length = n →
    sqNormL (residL n G b x) ≤ sqNormL (residL n G b y)

/-- `x` is a least-squares solution of minimum norm. -/
def IsMinNormLSQ (n : Nat) (G : Mat) (b : Vec) (x : List ℚ) : Prop :=
  IsLeastSquares n G b x ∧
    ∀ y : List ℚ, IsLeastSquares n G b y → sqNormL x ≤ sqNormL y

/-- Modelled from the spec: the contract of the external least-squares
solve (`np.linalg.lstsq` with `rcond=None`, §4.2) — every solution it
returns is a least-squares minimiser of minimum norm, also on
rank-deficient (underconstrained) systems, instead of failing there. -/
def SolverContract (solver : Solver) : Prop :=
  ∀ (G : Mat) (b : Vec) (n : Nat) (x : List ℚ),
    solver G b n = .ok x → IsMinNormLSQ n G b x

theorem updG_add (G : Mat) (i j : Nat) (v : ℚ) (a b : Nat) :
    updG G i j (G i j + v) a b = G a b + (if a = i ∧ b = j then v else 0) := by
  unfold updG
  split_ifs with h
  · rcases h with ⟨h1, h2⟩
    subst h1
    subst h2
    rfl
  · simp

theorem updG_add_pt (G H : Mat) (i j : Nat) (v : ℚ) (C : Nat → Nat → ℚ)
    (h : ∀ x y, G x y = H x y + C x y) :
    ∀ x y, updG G i j (G i j + v) x y
      = H x y + (C x y + if x = i ∧ y = j then v else 0) := by
  intro x y
  rw [updG_add, h]
  ring

theorem updG_sub_pt (G H : Mat) (i j : Nat) (v : ℚ) (C : Nat → Nat → ℚ)
    (h : ∀ x y, G x y = H x y + C x y) :
    ∀ x y, updG G i j (G i j - v) x y
      = H x y + (C x y + if x = i ∧ y = j then -v else 0) := by
  intro x y
  rw [sub_eq_add_neg, updG_add, h]
  ring

/-- A single pass of the resistor loop adds exactly the four-addend
contribution `resContrib` to every entry. -/
theorem stampOneResistor_apply (g : Option Node) (ns : List Node) (G : Mat)
    (r : Component) (a b : Nat) :
    stampOneResistor g ns G r a b = G a b + resContrib g ns r a b := by
  by_cases hp : r.node_plus = g <;> by_cases hm : r.node_minus = g
  · simp [stampOneResistor, resContrib, hp, hm]
  · simp only [stampOneResistor, resContrib, hp, hm, ne_eq,
      not_true_eq_false, not_false_eq_true, ite_true, ite_false, if_true,
      if_false, true_and, false_and, and_true, and_false, and_self]
    rw [updG_add]
    ring
  · simp only [stampOneResistor, resContrib, hp, hm, ne_eq,
      not_true_eq_false, not_false_eq_true, ite_true, ite_false, if_true,
      if_false, true_and, false_and, and_true, and_false, and_self]
    rw [updG_add]
    ring
  · simp only [stampOneResistor, resContrib, hp, hm, ne_eq,
      not_true_eq_false, not_false_eq_true, ite_true, ite_false, if_true,
      if_false, true_and, false_and, and_true, and_false, and_self]
    have e1 := updG_add_pt G G (oidx ns r.node_plus) (oidx ns r.node_plus)
      r.get_conductance (fun _ _ => (0 : ℚ)) (fun x y => (add_zero _).symm)
    have e2 := updG_add_pt _ G (oidx ns r.node_minus) (oidx ns r.node_minus)
      r.get_conductance _ e1
    have e3 := updG_sub_pt _ G (oidx ns r.node_plus) (oidx ns r.node_minus)
      r.get_conductance _ e2
    have e4 := updG_sub_pt _ G (oidx ns r.node_minus) (oidx ns r.node_plus)
      r.get_conductance _ e3
    exact (e4 a b).trans (by ring)

/-- The whole resistor loop is additive: every entry of its output is
the input entry plus the sum of the per-resistor contributions. -/
theorem stampResistorsG_apply (g : Option Node) (ns : List Node) :
    ∀ (rs : List Component) (G0 : Mat) (a b : Nat),
    stampResistorsG g ns G0 rs a b
      = G0 a b + (rs.map (fun r => resContrib g ns r a b)).sum := by
  intro rs
  induction rs with
  | nil => intro G0 a b; simp [stampResistorsG]
  | cons r rest ih =>
    intro G0 a b
    simp only [stampResistorsG, List.foldl_cons, List.map_cons,
      List.sum_cons]
    have h := ih (stampOneResistor g ns G0 r) a b
    simp only [stampResistorsG] at h
    rw [h, stampOneResistor_apply]
    ring

theorem updV_add (I : Vec) (i : Nat) (v : ℚ) (a : Nat) :
    updV I i (I i + v) a = I a + (if a = i then v else 0) := by
  unfold updV
  split_ifs with h
  · subst h
    rfl
  · simp

theorem updV_add_pt (I H : Vec) (i : Nat) (v : ℚ) (C : Nat → ℚ)
    (h : ∀ x, I x = H x + C x) :
    ∀ x, updV I i (I i + v) x = H x + (C x + if x = i then v else 0) := by
  intro x
  rw [updV_add, h]
  ring

theorem updV_sub_pt (I H : Vec) (i : Nat) (v : ℚ) (C : Nat → ℚ)
    (h : ∀ x, I x = H x + C x) :
    ∀ x, updV I i (I i - v) x = H x + (C x + if x = i then -v else 0) := by
  intro x
  rw [sub_eq_add_neg, updV_add, h]
  ring

/-- A single pass of the current-source loop adds exactly the two-addend
contribution `csContrib` to every entry of `I`. -/
theorem stampOneCSource_apply (g : Option Node) (ns : List Node) (I : Vec)
    (comp : Component) (a : Nat) :
    stampOneCSource g ns I comp a = I a + csContrib g ns comp a := by
  by_cases hp : comp.node_plus = g <;> by_cases hm : comp.node_minus = g
  · simp [stampOneCSource, csContrib, hp, hm]
  · simp only [stampOneCSource, csContrib, hp, hm, ne_eq,
      not_true_eq_false, not_false_eq_true, ite_true, ite_false, if_true,
      if_false, true_and, false_and, and_true, and_false, and_self]
    rw [updV_add]
    ring
  · simp only [stampOneCSource, csContrib, hp, hm, ne_eq,
      not_true_eq_false, not_false_eq_true, ite_true, ite_false, if_true,
      if_false, true_and, false_and, and_true, and_false, and_self]
    rw [sub_eq_add_neg, updV_add]
    ring
  · simp only [stampOneCSource, csContrib, hp, hm, ne_eq,
      not_true_eq_false, not_false_eq_true, ite_true, ite_false, if_true,
      if_false, true_and, false_and, and_true, and_false, and_self]
    have e1 := updV_sub_pt I I (oidx ns comp.node_plus)
      (match comp.kind with | .currentSource i => i | _ => 0)
      (fun _ => (0 : ℚ)) (fun x => (add_zero _).symm)
    have e2 := updV_add_pt _ I (oidx ns comp.node_minus)
      (match comp.kind with | .currentSource i => i | _ => 0) _ e1
    exact (e2 a).trans (by ring)

/-- The whole current-source loop is additive. -/
theorem stampCSourcesI_apply (g : Option Node) (ns : List Node) :
    ∀ (cs : List Component) (I0 : Vec) (a : Nat),
    stampCSourcesI g ns I0 cs a
      = I0 a + (cs.map (fun comp => csContrib g ns comp a)).sum := by
  intro cs
  induction cs with
  | nil => intro I0 a; simp [stampCSourcesI]
  | cons comp rest ih =>
    intro I0 a
    simp only [stampCSourcesI, List.foldl_cons, List.map_cons,
      List.sum_cons]
    have h := ih (stampOneCSource g ns I0 comp) a
    simp only [stampCSourcesI] at h
    rw [h, stampOneCSource_apply]
    ring

/-- The excitation vector produced by the voltage-source loop never
reads the conductance accumulator. -/
theorem stampVSrcs_snd (g : Option Node) (ns : List Node) :
    ∀ (vd : List (Option Node × Option Node × ℚ)) (e : Nat)
      (G1 G2 : Mat) (I : Vec),
    (stampVSrcs g ns e vd (G1, I)).2 = (stampVSrcs g ns e vd (G2, I)).2 := by
  intro vd
  induction vd with
  | nil => intro e G1 G2 I; rfl
  | cons h rest ih =>
    intro e G1 G2 I
    rcases h with ⟨p, m, v⟩
    simp only [stampVSrcs]
    exact ih (e + 1) _ _ (updV I e v)

theorem filter_sub_filter (p q : Component → Bool)
    (h : ∀ comp, p comp = true → q comp = true) :
    ∀ l : List Component, (l.filter q).filter p = l.filter p := by
  intro l
  induction l with
  | nil => rfl
  | cons a l ih =>
    by_cases hq : q a
    · by_cases hp : p a <;> simp [List.filter_cons, hq, hp, ih]
    · have hp : p a = false := by
        cases hpa : p a
        · rfl
        · exact absurd (h a hpa) hq
      simp [List.filter_cons, hq, hp, ih]

/-- C1: for every resistor with conductance `g = 1/R` across terminals
p, m, matrix assembly adds `g` to `G[p,p]` when p is not ground, adds
`g` to `G[m,m]` when m is not ground, and subtracts `g` from `G[p,m]`
and `G[m,p]` when neither terminal is ground (the four addends of
`resContrib`), and resistors contribute nothing else: every entry of `G`
after the resistor loop is the initial entry plus exactly the sum of
these per-resistor contributions, and the assembled excitation vector
`I` does not depend on the resistor list at all. -/
theorem c1_resistor_stamping :
    (∀ (g : Option Node) (ns : List Node) (G0 : Mat)
        (rs : List Component) (a b : Nat),
      stampResistorsG g ns G0 rs a b
        = G0 a b + (rs.map (fun r => resContrib g ns r a b)).sum)
    ∧ ∀ c : Circuit,
      (build_mna_matrices (without_resistors c)).Ivec
        = (build_mna_matrices c).Ivec := by
  constructor
  · exact fun g ns G0 rs a b => stampResistorsG_apply g ns rs G0 a b
  · intro c
    have hvs := filter_sub_filter
      (fun comp => comp.kind.isVoltageSource)
      (fun comp => !comp.kind.isResistor)
      (by
        intro comp h
        cases hk : comp.kind <;>
          simp_all [ComponentKind.isVoltageSource, ComponentKind.isResistor])
      c.components
    have hcs := filter_sub_filter
      (fun comp => comp.kind.isCurrentSource)
      (fun comp => !comp.kind.isResistor)
      (by
        intro comp h
        cases hk : comp.kind <;>
          simp_all [ComponentKind.isCurrentSource, ComponentKind.isResistor])
      c.components
    simp only [without_resistors, build_mna_matrices, nodes_to_solve,
      vsData, resistorsOf, current_sourcesOf]
    rw [hvs, hcs]
    exact stampVSrcs_snd c.ground _ _ _ _ _ _

/-- C3: the current-source loop subtracts the fixed current from `I[p]`
when p is not ground and adds it to `I[m]` when m is not ground (the two
addends of `csContrib`, summed over all current sources); consequently
the circuit `I1 = 0.01A` n1→gnd, `R1 = 500Ω` n1–gnd, ground at gnd
analyses to `V(n1) = −5` and reported resistor current `−0.01 = −1/100`
(entries exact in ℚ). -/
theorem c3_current_source_stamping :
    (∀ (g : Option Node) (ns : List Node) (I0 : Vec)
        (cs : List Component) (a : Nat),
      stampCSourcesI g ns I0 cs a
        = I0 a + (cs.map (fun comp => csContrib g ns comp a)).sum)
    ∧ (analyze csourceC).1
        = .ok ([(⟨"gnd"⟩, 0), (⟨"n1"⟩, -5)],
            [("I1", ⟨-5, 1/100, -1/20⟩), ("R1", ⟨-5, -1/100, 1/20⟩)]) := by
  constructor
  · exact fun g ns I0 cs a => stampCSourcesI_apply g ns cs I0 a
  · norm_num +decide [analyze, analyzeWith, analyze_post, extract_results,
      with_solved_currents, validate_circuit,
      csourceC, Circuit.add_component, Circuit.add_node, Circuit.add_ground,
      build_mna_matrices, nodes_to_solve, vsData, resistorsOf,
      current_sourcesOf, stampResistorsG, stampOneResistor,
      stampCSourcesI, stampOneCSource, stampVSrcs,
      Component.get_conductance, Component.get_nodes,
      Component.get_voltage, Component.get_current, oidx, idxOfN, updG,
      updV, npLstsq, gaussAux, pickPivot, elimRow, dotL, mk_node_voltages,
      nv_entries, set_vs_currents, calc_results, nvFind,
      ComponentKind.isResistor, ComponentKind.isVoltageSource,
      ComponentKind.isCurrentSource, rangeAsc, List.filter, List.find?,
      List.foldl, List.headD, List.getD, List.isEmpty]

/-- C4: the series voltage divider (10 V source n1–gnd, two 1000 Ω
resistors n1–n2 and n2–gnd, ground at gnd) analyses to `V(n1) = 10`,
`V(n2) = 5`, current `1/200 = 0.005` through both resistors (exact, so
within 1e-6) and power `1/40 = 0.025` in each; moreover every
resistor's reported current is its voltage (the node-voltage difference)
divided by its resistance, and its recorded power is voltage times
current. -/
theorem c4_voltage_divider :
    (analyze dividerC).1
      = .ok ([(⟨"gnd"⟩, 0), (⟨"n1"⟩, 10), (⟨"n2"⟩, 5)],
          [("V1", ⟨10, -1/200, -1/20⟩), ("R1", ⟨5, 1/200, 1/40⟩),
           ("R2", ⟨5, 1/200, 1/40⟩)])
    ∧ (∀ (nm : String) (r pr tl : ℚ) (p m : Option Node)
        (nv : List (Node × ℚ)),
        Component.get_current ⟨nm, .resistor r pr tl, p, m⟩ nv
          = .ok (Component.get_voltage ⟨nm, .resistor r pr tl, p, m⟩ nv / r))
    ∧ ∀ (nm : String) (r pr tl : ℚ) (p m : Option Node)
        (rest : List Component) (nv : List (Node × ℚ)),
        calc_results (⟨nm, .resistor r pr tl, p, m⟩ :: rest) nv
          = match calc_results rest nv with
            | .error e => .error e
            | .ok rs =>
              .ok ((nm,
                ⟨Component.get_voltage ⟨nm, .resistor r pr tl, p, m⟩ nv,
                 Component.get_voltage ⟨nm, .resistor r pr tl, p, m⟩ nv / r,
                 Component.get_voltage ⟨nm, .resistor r pr tl, p, m⟩ nv
                   * (Component.get_voltage ⟨nm, .resistor r pr tl, p, m⟩ nv
                     / r)⟩) :: rs) := by
  refine ⟨?_, ?_, ?_⟩
  · norm_num +decide [analyze, analyzeWith, analyze_post, extract_results,
      with_solved_currents, validate_circuit,
      dividerC, Circuit.add_component, Circuit.add_node, Circuit.add_ground,
      build_mna_matrices, nodes_to_solve, vsData, resistorsOf,
      current_sourcesOf, stampResistorsG, stampOneResistor,
      stampCSourcesI, stampOneCSource, stampVSrcs,
      Component.get_conductance, Component.get_nodes,
      Component.get_voltage, Component.get_current, oidx, idxOfN, updG,
      updV, npLstsq, gaussAux, pickPivot, elimRow, dotL, mk_node_voltages,
      nv_entries, set_vs_currents, calc_results, nvFind,
      ComponentKind.isResistor, ComponentKind.isVoltageSource,
      ComponentKind.isCurrentSource, rangeAsc, List.filter, List.find?,
      List.foldl, List.headD, List.getD, List.isEmpty]
  · intro nm r pr tl p m nv
    simp [Component.get_current, Component.get_voltage]
  · intro nm r pr tl p m rest nv
    simp [calc_results, Component.get_current]

/-- C6: a circuit with no registered ground fails validation with
`ValueError("Circuit must have a ground reference")`, and `analyze`
propagates exactly that error with the circuit state untouched — the
failure happens in pre-analysis validation, before any matrix assembly,
and no partial results are produced. -/
theorem c6_missing_ground (c : Circuit) (h : c.ground = none) :
    validate_circuit c
        = .error (.valueError "Circuit must have a ground reference")
      ∧ analyze c
        = (.error (.valueError "Circuit must have a ground reference"), c) := by
  constructor
  · simp [validate_circuit, h]
  · simp [analyze, analyzeWith, validate_circuit, h]

/-- Witness for `c6_missing_ground`: the empty circuit has no ground
and `analyze` fails exactly as stated. -/
theorem c6_witness :
    emptyC.ground = none ∧
      validate_circuit emptyC
          = .error (.valueError "Circuit must have a ground reference") ∧
      analyze emptyC
          = (.error (.valueError "Circuit must have a ground reference"),
             emptyC) :=
  ⟨rfl, (c6_missing_ground emptyC rfl).1, (c6_missing_ground emptyC rfl).2⟩
theorem stampVSrcs_stable (g : Option Node) (ns : List Node) :
    ∀ (vd : List (Option Node × Option Node × ℚ)) (e0 : Nat)
      (GI : Mat × Vec) (a b i : Nat), a < e0 → b < e0 → i < e0 →
    (stampVSrcs g ns e0 vd GI).1 a b = GI.1 a b
      ∧ (stampVSrcs g ns e0 vd GI).2 i = GI.2 i := by
  intro vd
  induction vd with
  | nil => intro e0 GI a b i ha hb hi; exact ⟨rfl, rfl⟩
  | cons hd rest ih =>
    intro e0 GI a b i ha hb hi
    rcases hd with ⟨p, m, v⟩
    rcases GI with ⟨G, I⟩
    simp only [stampVSrcs]
    constructor
    · refine Eq.trans
        ((ih (e0 + 1) _ a b i (by omega) (by omega) (by omega)).1) ?_
      by_cases hpg : p = g <;> by_cases hmg : m = g <;>
        simp only [hpg, hmg, ne_eq, not_true_eq_false, not_false_eq_true,
          ite_true, ite_false, if_true, if_false, updG] <;>
        split_ifs <;> first
        | rfl
        | (exfalso; simp_all)
    · refine Eq.trans
        ((ih (e0 + 1) _ a b i (by omega) (by omega) (by omega)).2) ?_
      simp only [updV]
      split_ifs <;> first
      | rfl
      | (exfalso; omega)


theorem stampVSrcs_spec (g : Option Node) (ns : List Node) :
    ∀ (vd : List (Option Node × Option Node × ℚ)) (e0 : Nat)
      (GI : Mat × Vec),
    (∀ pmv ∈ vd, (pmv.1 ≠ g → oidx ns pmv.1 < e0) ∧
        (pmv.2.1 ≠ g → oidx ns pmv.2.1 < e0)) →
    ∀ (k : Nat) (p m : Option Node) (v : ℚ), vd[k]? = some (p, m, v) →
      (m ≠ g → (stampVSrcs g ns e0 vd GI).1 (oidx ns m) (e0 + k) = -1
          ∧ (stampVSrcs g ns e0 vd GI).1 (e0 + k) (oidx ns m) = -1)
        ∧ (p ≠ g → (m = g ∨ oidx ns p ≠ oidx ns m) →
            (stampVSrcs g ns e0 vd GI).1 (oidx ns p) (e0 + k) = 1
              ∧ (stampVSrcs g ns e0 vd GI).1 (e0 + k) (oidx ns p) = 1)
        ∧ (stampVSrcs g ns e0 vd GI).2 (e0 + k) = v := by
  intro vd
  induction vd with
  | nil =>
    intro e0 GI hb k p m v hk
    simp at hk
  | cons hd rest ih =>
    intro e0 GI hb k p m v hk
    match k with
    | 0 =>
      have hhd : hd = (p, m, v) := by
        simpa using hk
      subst hhd
      rcases GI with ⟨G, I⟩
      have hbp := (hb (p, m, v) (List.mem_cons_self _ _)).1
      have hbm := (hb (p, m, v) (List.mem_cons_self _ _)).2
      simp only [stampVSrcs, Nat.add_zero]
      refine ⟨?_, ?_, ?_⟩
      · intro hm
        have hj : oidx ns m < e0 := by simpa using hbm hm
        have hje : oidx ns m ≠ e0 := Nat.ne_of_lt hj
        constructor
        · refine Eq.trans ((stampVSrcs_stable g ns rest (e0 + 1) _
            (oidx ns m) e0 0 (by omega) (by omega) (by omega)).1) ?_
          simp [updG, hm, hje, hje.symm]
        · refine Eq.trans ((stampVSrcs_stable g ns rest (e0 + 1) _
            e0 (oidx ns m) 0 (by omega) (by omega) (by omega)).1) ?_
          simp [updG, hm, hje, hje.symm]
      · intro hp hside
        have hi : oidx ns p < e0 := by simpa using hbp hp
        have hie : oidx ns p ≠ e0 := Nat.ne_of_lt hi
        constructor
        · refine Eq.trans ((stampVSrcs_stable g ns rest (e0 + 1) _
            (oidx ns p) e0 0 (by omega) (by omega) (by omega)).1) ?_
          rcases hside with hmg | hij
          · simp [updG, hp, hmg, hie, hie.symm]
          · by_cases hm : m = g
            · simp [updG, hp, hm, hie, hie.symm]
            · have hj : oidx ns m < e0 := by simpa using hbm hm
              have hje : oidx ns m ≠ e0 := Nat.ne_of_lt hj
              simp [updG, hp, hm, hie, hie.symm, hij, hij.symm, hje,
                hje.symm]
        · refine Eq.trans ((stampVSrcs_stable g ns rest (e0 + 1) _
            e0 (oidx ns p) 0 (by omega) (by omega) (by omega)).1) ?_
          rcases hside with hmg | hij
          · simp [updG, hp, hmg, hie, hie.symm]
          · by_cases hm : m = g
            · simp [updG, hp, hm, hie, hie.symm]
            · have hj : oidx ns m < e0 := by simpa using hbm hm
              have hje : oidx ns m ≠ e0 := Nat.ne_of_lt hj
              simp [updG, hp, hm, hie, hie.symm, hij, hij.symm, hje,
                hje.symm]
      · refine Eq.trans ((stampVSrcs_stable g ns rest (e0 + 1) _
          0 0 e0 (by omega) (by omega) (by omega)).2) ?_
        simp [updV]
    | k + 1 =>
      have hk2 : rest[k]? = some (p, m, v) := by
        simpa using hk
      have hb2 : ∀ pmv ∈ rest, (pmv.1 ≠ g → oidx ns pmv.1 < e0 + 1) ∧
          (pmv.2.1 ≠ g → oidx ns pmv.2.1 < e0 + 1) := by
        intro pmv hmem
        have h := hb pmv (List.mem_cons_of_mem _ hmem)
        exact ⟨fun hx => by have := h.1 hx; omega,
          fun hx => by have := h.2 hx; omega⟩
      have heq : e0 + (k + 1) = (e0 + 1) + k := by omega
      rcases GI with ⟨G, I⟩
      rcases hd with ⟨p2, m2, v2⟩
      rw [heq]
      simp only [stampVSrcs]
      exact ih (e0 + 1) _ hb2 k p m v hk2

theorem idxOfN_lt_length : ∀ (ns : List Node) (n : Node), n ∈ ns →
    idxOfN ns n < ns.length := by
  intro ns
  induction ns with
  | nil => intro n h; simp at h
  | cons a rest ih =>
    intro n h
    by_cases ha : a = n
    · simp [idxOfN, ha]
    · rcases List.mem_cons.mp h with h1 | h2
      · exact absurd h1.symm ha
      · simp only [idxOfN, ha, if_false, ite_false, List.length_cons]
        have := ih n h2
        omega

theorem idxOfN_inj : ∀ (ns : List Node), ns.Nodup →
    ∀ a b, a ∈ ns → b ∈ ns → idxOfN ns a = idxOfN ns b → a = b := by
  intro ns
  induction ns with
  | nil => intro _ a b ha; simp at ha
  | cons x rest ih =>
    intro hnd a b ha hb heq
    rcases List.nodup_cons.mp hnd with ⟨hx, hrest⟩
    by_cases hxa : x = a <;> by_cases hxb : x = b
    · exact hxa.symm.trans hxb
    · exfalso
      simp only [idxOfN] at heq
      rw [if_pos hxa, if_neg hxb] at heq
      exact Nat.succ_ne_zero _ heq.symm
    · exfalso
      simp only [idxOfN] at heq
      rw [if_neg hxa, if_pos hxb] at heq
      exact Nat.succ_ne_zero _ heq
    · simp only [idxOfN] at heq
      rw [if_neg hxa, if_neg hxb] at heq
      have ha2 : a ∈ rest := by
        rcases List.mem_cons.mp ha with h | h
        · exact absurd h.symm hxa
        · exact h
      have hb2 : b ∈ rest := by
        rcases List.mem_cons.mp hb with h | h
        · exact absurd h.symm hxb
        · exact h
      exact ih hrest a b ha2 hb2 (by omega)

theorem terminals_registered_spec (c : Circuit)
    (h : terminals_registered c = true) :
    ∀ comp ∈ c.components, ∀ t ∈ comp.get_nodes,
      ∃ n, t = some n ∧ n ∈ c.nodes := by
  intro comp hcomp t ht
  have h1 := (List.all_eq_true.mp h) comp hcomp
  have h2 := (List.all_eq_true.mp h1) t ht
  match t with
  | some n => exact ⟨n, rfl, by simpa using h2⟩
  | none => simp at h2

theorem vsData_mem (l : List Component) (p m : Option Node) (v : ℚ)
    (h : (p, m, v) ∈ vsData l) :
    ∃ comp ∈ l, comp.node_plus = p ∧ comp.node_minus = m ∧
      comp.kind.isVoltageSource = true := by
  rcases List.mem_map.mp h with ⟨comp, hmem, heq⟩
  rcases List.mem_filter.mp hmem with ⟨hin, hvs⟩
  refine ⟨comp, hin, ?_, ?_, hvs⟩
  · exact congrArg Prod.fst heq
  · exact congrArg Prod.fst (congrArg Prod.snd heq)

theorem mem_nodes_to_solve (c : Circuit) (n : Node) (hn : n ∈ c.nodes)
    (hg : some n ≠ c.ground) : n ∈ nodes_to_solve c := by
  unfold nodes_to_solve
  exact List.mem_filter.mpr ⟨hn, by simpa using hg⟩

theorem vs_get_nodes (comp : Component)
    (h : comp.kind.isVoltageSource = true) :
    comp.get_nodes = [comp.node_plus, comp.node_minus] := by
  unfold Component.get_nodes
  match hk : comp.kind with
  | .voltageSource _ _ => rfl
  | .resistor _ _ _ => rfl
  | .currentSource _ => rfl
  | .gnd => rw [hk] at h; simp [ComponentKind.isVoltageSource] at h
  | .capacitor _ _ _ => rfl
  | .inductor _ _ _ => rfl

theorem vsData_bound (c : Circuit) (hreg : terminals_registered c = true) :
    ∀ pmv ∈ vsData c.components,
      (pmv.1 ≠ c.ground →
        oidx (nodes_to_solve c) pmv.1 < (nodes_to_solve c).length) ∧
      (pmv.2.1 ≠ c.ground →
        oidx (nodes_to_solve c) pmv.2.1 < (nodes_to_solve c).length) := by
  rintro ⟨p, m, v⟩ hmem
  rcases vsData_mem c.components p m v hmem with ⟨comp, hin, hp, hm, hvs⟩
  have hreg2 := terminals_registered_spec c hreg comp hin
  rw [vs_get_nodes comp hvs, hp, hm] at hreg2
  constructor
  · intro hpg
    rcases hreg2 p (by simp) with ⟨n, hn1, hn2⟩
    subst hn1
    have := idxOfN_lt_length (nodes_to_solve c) n
      (mem_nodes_to_solve c n hn2 hpg)
    simpa [oidx] using this
  · intro hmg
    rcases hreg2 m (by simp) with ⟨n, hn1, hn2⟩
    subst hn1
    have := idxOfN_lt_length (nodes_to_solve c) n
      (mem_nodes_to_solve c n hn2 hmg)
    simpa [oidx] using this

/-- C2 (amended): for a circuit with a duplicate-free node registry and
all terminals registered, voltage source `k` (equation index
`e = n_nodes + k`) sets `G[m,e] = G[e,m] = -1` when m is not ground, and
sets `G[p,e] = G[e,p] = 1` when p is not ground provided m is ground or
`p ≠ m` — when `p = m` (a self-loop source) the later minus-terminal
writes overwrite the plus-terminal writes; `I[e]` is set to the source
voltage, and the assembled system is square of size
`n_nodes + n_vsources` starting from a zero matrix. -/
theorem c2_vsource_stamping (c : Circuit)
    (hnd : c.nodes.Nodup) (hreg : terminals_registered c = true)
    (k : Nat) (p m : Option Node) (v : ℚ)
    (hk : (vsData c.components)[k]? = some (p, m, v)) :
    (build_mna_matrices c).total_size
        = (build_mna_matrices c).n_nodes + (build_mna_matrices c).n_vsources
      ∧ (m ≠ c.ground →
          (build_mna_matrices c).G (oidx (nodes_to_solve c) m)
              ((build_mna_matrices c).n_nodes + k) = -1
            ∧ (build_mna_matrices c).G ((build_mna_matrices c).n_nodes + k)
                (oidx (nodes_to_solve c) m) = -1)
      ∧ (p ≠ c.ground → (m = c.ground ∨ p ≠ m) →
          (build_mna_matrices c).G (oidx (nodes_to_solve c) p)
              ((build_mna_matrices c).n_nodes + k) = 1
            ∧ (build_mna_matrices c).G ((build_mna_matrices c).n_nodes + k)
                (oidx (nodes_to_solve c) p) = 1)
      ∧ (build_mna_matrices c).Ivec
          ((build_mna_matrices c).n_nodes + k) = v := by
  have hb := vsData_bound c hreg
  have hspec := stampVSrcs_spec c.ground (nodes_to_solve c)
    (vsData c.components) (nodes_to_solve c).length
    (stampResistorsG c.ground (nodes_to_solve c) (fun _ _ => 0)
        (resistorsOf c),
     stampCSourcesI c.ground (nodes_to_solve c) (fun _ => 0)
        (current_sourcesOf c))
    hb k p m v hk
  refine ⟨rfl, ?_, ?_, ?_⟩
  · exact hspec.1
  · intro hp hside
    apply hspec.2.1 hp
    rcases hside with h | h
    · exact Or.inl h
    · by_cases hm : m = c.ground
      · exact Or.inl hm
      · right
        have hmem : (p, m, v) ∈ vsData c.components :=
          List.getElem?_mem hk
        rcases vsData_mem c.components p m v hmem with
          ⟨comp, hin, hcp, hcm, hvs⟩
        have hreg2 := terminals_registered_spec c hreg comp hin
        rw [vs_get_nodes comp hvs, hcp, hcm] at hreg2
        rcases hreg2 p (by simp) with ⟨a, hpa, hain⟩
        rcases hreg2 m (by simp) with ⟨b, hmb, hbin⟩
        subst hpa
        subst hmb
        have hab : a ≠ b := fun hc => h (by rw [hc])
        have hans : a ∈ nodes_to_solve c := mem_nodes_to_solve c a hain hp
        have hbns : b ∈ nodes_to_solve c := mem_nodes_to_solve c b hbin hm
        have hndns : (nodes_to_solve c).Nodup := hnd.filter _
        intro hoidx
        exact hab (idxOfN_inj (nodes_to_solve c) hndns a b hans hbns
          (by simpa [oidx] using hoidx))
  · exact hspec.2.2

/-- C2 counterexample: for the voltage source registered with both
terminals on the node n1 (not ground), the claim "sets `G[p,e] = 1` when
p is not the ground node" fails: the assembled entry `G[p,e]` is `-1`,
because the minus-terminal assignment overwrites the plus-terminal
assignment at the same cell. -/
theorem c2_counterexample :
    nodes_to_solve selfLoopC = [⟨"n1"⟩]
      ∧ vsData selfLoopC.components = [(some ⟨"n1"⟩, some ⟨"n1"⟩, 5)]
      ∧ selfLoopC.ground = some ⟨"gnd"⟩
      ∧ (build_mna_matrices selfLoopC).G 0 1 = -1
      ∧ ¬((build_mna_matrices selfLoopC).G 0 1 = 1) := by
  refine ⟨?_, ?_, ?_, ?_, ?_⟩ <;>
    norm_num +decide [selfLoopC, Circuit.add_component, Circuit.add_node,
      Circuit.add_ground, build_mna_matrices, nodes_to_solve, vsData,
      resistorsOf, current_sourcesOf, stampResistorsG, stampOneResistor,
      stampCSourcesI, stampOneCSource, stampVSrcs,
      Component.get_conductance, oidx, idxOfN, updG, updV,
      ComponentKind.isResistor, ComponentKind.isVoltageSource,
      ComponentKind.isCurrentSource, List.filter]

/-- Witness for `c2_vsource_stamping`: the amended stamping facts hold
at the concrete circuit `vsMidC`, whose single source spans two distinct
non-ground nodes. -/
theorem c2_witness :
    vsMidC.nodes.Nodup
      ∧ terminals_registered vsMidC = true
      ∧ (vsData vsMidC.components)[0]?
          = some (some ⟨"n1"⟩, some ⟨"n2"⟩, 3)
      ∧ ((build_mna_matrices vsMidC).G
            (oidx (nodes_to_solve vsMidC) (some ⟨"n2"⟩))
            ((build_mna_matrices vsMidC).n_nodes + 0) = -1
          ∧ (build_mna_matrices vsMidC).G
              ((build_mna_matrices vsMidC).n_nodes + 0)
              (oidx (nodes_to_solve vsMidC) (some ⟨"n2"⟩)) = -1)
      ∧ ((build_mna_matrices vsMidC).G
            (oidx (nodes_to_solve vsMidC) (some ⟨"n1"⟩))
            ((build_mna_matrices vsMidC).n_nodes + 0) = 1
          ∧ (build_mna_matrices vsMidC).G
              ((build_mna_matrices vsMidC).n_nodes + 0)
              (oidx (nodes_to_solve vsMidC) (some ⟨"n1"⟩)) = 1)
      ∧ (build_mna_matrices vsMidC).Ivec
          ((build_mna_matrices vsMidC).n_nodes + 0) = 3 := by
  have h := c2_vsource_stamping vsMidC (by decide) (by decide) 0
    (some ⟨"n1"⟩) (some ⟨"n2"⟩) 3 (by decide)
  exact ⟨by decide, by decide, by decide,
    h.2.1 (by decide),
    h.2.2.1 (by decide) (Or.inr (by decide)),
    h.2.2.2⟩

theorem validate_ok_ground (c : Circuit) (b : Bool)
    (h : validate_circuit c = .ok b) : ∃ g, c.ground = some g := by
  unfold validate_circuit at h
  match hg : c.ground with
  | some g => exact ⟨g, rfl⟩
  | none => rw [hg] at h; exact absurd h (by simp)

theorem validate_ok_of_connected (c : Circuit) (g : Node)
    (hg : c.ground = some g) (hconn : terminals_connected c = true) :
    validate_circuit c = .ok true := by
  unfold validate_circuit
  rw [hg]
  have hnone : c.components.find?
      (fun comp => comp.get_nodes.any (fun t => t.isNone)) = none := by
    rw [List.find?_eq_none]
    intro comp hmem
    have h1 := (List.all_eq_true.mp hconn) comp hmem
    simp only [List.any_eq_true, not_exists]
    intro t
    intro ht
    have h2 := (List.all_eq_true.mp h1) t ht.1
    rcases ht with ⟨_, hisnone⟩
    rw [Option.isNone_iff_eq_none] at hisnone
    rw [hisnone] at h2
    simp at h2
  rw [hnone]

theorem connected_of_registered (c : Circuit)
    (h : terminals_registered c = true) : terminals_connected c = true := by
  unfold terminals_connected
  rw [List.all_eq_true]
  intro comp hmem
  rw [List.all_eq_true]
  intro t ht
  rcases terminals_registered_spec c h comp hmem t ht with ⟨n, hn, _⟩
  rw [hn]
  rfl

theorem calc_error (nv : List (Node × ℚ)) :
    ∀ l : List Component,
    l.any (fun comp => !comp.kind.implements_dc) = true →
    calc_results l nv = .error .notImplementedError := by
  intro l
  induction l with
  | nil => intro h; simp at h
  | cons comp rest ih =>
    intro h
    match hk : comp.kind with
    | .gnd =>
      have hrest : rest.any (fun comp => !comp.kind.implements_dc) = true := by
        rw [List.any_cons] at h
        simpa [hk, ComponentKind.implements_dc] using h
      simp only [calc_results, hk]
      simpa using ih hrest
    | .resistor r pr tl =>
      have hrest : rest.any (fun comp => !comp.kind.implements_dc) = true := by
        rw [List.any_cons] at h
        simpa [hk, ComponentKind.implements_dc] using h
      simp only [calc_results, hk, Component.get_current]
      rw [ih hrest]
      simp [hk]
    | .voltageSource v cur =>
      have hrest : rest.any (fun comp => !comp.kind.implements_dc) = true := by
        rw [List.any_cons] at h
        simpa [hk, ComponentKind.implements_dc] using h
      simp only [calc_results, hk, Component.get_current]
      rw [ih hrest]
      simp [hk]
    | .currentSource cur =>
      have hrest : rest.any (fun comp => !comp.kind.implements_dc) = true := by
        rw [List.any_cons] at h
        simpa [hk, ComponentKind.implements_dc] using h
      simp only [calc_results, hk, Component.get_current]
      rw [ih hrest]
      simp [hk]
    | .capacitor a b tl =>
      simp [calc_results, hk, Component.get_current]
    | .inductor a b tl =>
      simp [calc_results, hk, Component.get_current]

theorem calc_ok (nv : List (Node × ℚ)) :
    ∀ l : List Component,
    l.all (fun comp => comp.kind.implements_dc) = true →
    ∃ res, calc_results l nv = .ok res := by
  intro l
  induction l with
  | nil => intro _; exact ⟨[], rfl⟩
  | cons comp rest ih =>
    intro h
    rw [List.all_cons] at h
    rcases Bool.and_eq_true_iff.mp h with ⟨hhd, htl⟩
    rcases ih htl with ⟨res, hres⟩
    match hk : comp.kind with
    | .gnd =>
      refine ⟨res, ?_⟩
      simp only [calc_results, hk]
      simpa using hres
    | .resistor r pr tl =>
      simp only [calc_results, hk, Component.get_current]
      rw [hres]
      exact ⟨_, rfl⟩
    | .voltageSource v cur =>
      simp only [calc_results, hk, Component.get_current]
      rw [hres]
      exact ⟨_, rfl⟩
    | .currentSource cur =>
      simp only [calc_results, hk, Component.get_current]
      rw [hres]
      exact ⟨_, rfl⟩
    | .capacitor a b tl =>
      rw [hk] at hhd
      simp [ComponentKind.implements_dc] at hhd
    | .inductor a b tl =>
      rw [hk] at hhd
      simp [ComponentKind.implements_dc] at hhd

theorem setvs_filter_res : ∀ (l : List Component) (sol : List ℚ) (k : Nat),
    (set_vs_currents l sol k).filter (fun comp => comp.kind.isResistor)
      = l.filter (fun comp => comp.kind.isResistor) := by
  intro l
  induction l with
  | nil => intro sol k; rfl
  | cons comp rest ih =>
    intro sol k
    match hk : comp.kind with
    | .voltageSource v cur =>
      have hu : ({ comp with kind := ComponentKind.voltageSource v (sol.getD k 0) } : Component).kind.isResistor = false := rfl
      have hc : comp.kind.isResistor = false := by
        rw [hk]
        rfl
      simp only [set_vs_currents, hk]
      rw [List.filter_cons, List.filter_cons, hu, hc, ih sol (k + 1)]
      simp only [Bool.false_eq_true, if_false, ite_false]
    | .resistor r pr tl =>
      simp only [set_vs_currents, hk]
      rw [List.filter_cons, List.filter_cons, ih sol k]
    | .currentSource cur =>
      simp only [set_vs_currents, hk]
      rw [List.filter_cons, List.filter_cons, ih sol k]
    | .gnd =>
      simp only [set_vs_currents, hk]
      rw [List.filter_cons, List.filter_cons, ih sol k]
    | .capacitor a b tl =>
      simp only [set_vs_currents, hk]
      rw [List.filter_cons, List.filter_cons, ih sol k]
    | .inductor a b tl =>
      simp only [set_vs_currents, hk]
      rw [List.filter_cons, List.filter_cons, ih sol k]

theorem setvs_filter_cs : ∀ (l : List Component) (sol : List ℚ) (k : Nat),
    (set_vs_currents l sol k).filter (fun comp => comp.kind.isCurrentSource)
      = l.filter (fun comp => comp.kind.isCurrentSource) := by
  intro l
  induction l with
  | nil => intro sol k; rfl
  | cons comp rest ih =>
    intro sol k
    match hk : comp.kind with
    | .voltageSource v cur =>
      have hu : ({ comp with kind := ComponentKind.voltageSource v (sol.getD k 0) } : Component).kind.isCurrentSource = false := rfl
      have hc : comp.kind.isCurrentSource = false := by
        rw [hk]
        rfl
      simp only [set_vs_currents, hk]
      rw [List.filter_cons, List.filter_cons, hu, hc, ih sol (k + 1)]
      simp only [Bool.false_eq_true, if_false, ite_false]
    | .resistor r pr tl =>
      simp only [set_vs_currents, hk]
      rw [List.filter_cons, List.filter_cons, ih sol k]
    | .currentSource cur =>
      simp only [set_vs_currents, hk]
      rw [List.filter_cons, List.filter_cons, ih sol k]
    | .gnd =>
      simp only [set_vs_currents, hk]
      rw [List.filter_cons, List.filter_cons, ih sol k]
    | .capacitor a b tl =>
      simp only [set_vs_currents, hk]
      rw [List.filter_cons, List.filter_cons, ih sol k]
    | .inductor a b tl =>
      simp only [set_vs_currents, hk]
      rw [List.filter_cons, List.filter_cons, ih sol k]

theorem setvs_vsData : ∀ (l : List Component) (sol : List ℚ) (k : Nat),
    vsData (set_vs_currents l sol k) = vsData l := by
  intro l
  induction l with
  | nil => intro sol k; rfl
  | cons comp rest ih =>
    intro sol k
    match hk : comp.kind with
    | .voltageSource v cur =>
      have hu : ({ comp with kind := ComponentKind.voltageSource v (sol.getD k 0) } : Component).kind.isVoltageSource = true := rfl
      have hc : comp.kind.isVoltageSource = true := by
        rw [hk]
        rfl
      have hihm := ih sol (k + 1)
      unfold vsData at hihm ⊢
      simp only [set_vs_currents, hk]
      rw [List.filter_cons, List.filter_cons, hu, hc]
      simp only [eq_self_iff_true, if_true, ite_true]
      rw [List.map_cons, List.map_cons, hihm]
      congr 1
      simp [hk]
    | .resistor r pr tl =>
      have hc : comp.kind.isVoltageSource = false := by
        rw [hk]
        rfl
      have hihm := ih sol k
      unfold vsData at hihm ⊢
      simp only [set_vs_currents, hk]
      rw [List.filter_cons, List.filter_cons, hc]
      simp only [Bool.false_eq_true, if_false, ite_false]
      exact hihm
    | .currentSource cur =>
      have hc : comp.kind.isVoltageSource = false := by
        rw [hk]
        rfl
      have hihm := ih sol k
      unfold vsData at hihm ⊢
      simp only [set_vs_currents, hk]
      rw [List.filter_cons, List.filter_cons, hc]
      simp only [Bool.false_eq_true, if_false, ite_false]
      exact hihm
    | .gnd =>
      have hc : comp.kind.isVoltageSource = false := by
        rw [hk]
        rfl
      have hihm := ih sol k
      unfold vsData at hihm ⊢
      simp only [set_vs_currents, hk]
      rw [List.filter_cons, List.filter_cons, hc]
      simp only [Bool.false_eq_true, if_false, ite_false]
      exact hihm
    | .capacitor a b tl =>
      have hc : comp.kind.isVoltageSource = false := by
        rw [hk]
        rfl
      have hihm := ih sol k
      unfold vsData at hihm ⊢
      simp only [set_vs_currents, hk]
      rw [List.filter_cons, List.filter_cons, hc]
      simp only [Bool.false_eq_true, if_false, ite_false]
      exact hihm
    | .inductor a b tl =>
      have hc : comp.kind.isVoltageSource = false := by
        rw [hk]
        rfl
      have hihm := ih sol k
      unfold vsData at hihm ⊢
      simp only [set_vs_currents, hk]
      rw [List.filter_cons, List.filter_cons, hc]
      simp only [Bool.false_eq_true, if_false, ite_false]
      exact hihm

theorem setvs_idem : ∀ (l : List Component) (sol : List ℚ) (k : Nat),
    set_vs_currents (set_vs_currents l sol k) sol k
      = set_vs_currents l sol k := by
  intro l
  induction l with
  | nil => intro sol k; rfl
  | cons comp rest ih =>
    intro sol k
    match hk : comp.kind with
    | .voltageSource v cur => simp [set_vs_currents, hk, ih]
    | .resistor r pr tl => simp [set_vs_currents, hk, ih]
    | .currentSource cur => simp [set_vs_currents, hk, ih]
    | .gnd => simp [set_vs_currents, hk, ih]
    | .capacitor a b tl => simp [set_vs_currents, hk, ih]
    | .inductor a b tl => simp [set_vs_currents, hk, ih]

theorem setvs_any_reactive : ∀ (l : List Component) (sol : List ℚ) (k : Nat),
    (set_vs_currents l sol k).any (fun comp => !comp.kind.implements_dc)
      = l.any (fun comp => !comp.kind.implements_dc) := by
  intro l
  induction l with
  | nil => intro sol k; rfl
  | cons comp rest ih =>
    intro sol k
    match hk : comp.kind with
    | .voltageSource v cur =>
      have hu : (!({ comp with kind := ComponentKind.voltageSource v (sol.getD k 0) } : Component).kind.implements_dc) = false := rfl
      have hc : (!comp.kind.implements_dc) = false := by
        rw [hk]
        rfl
      simp only [set_vs_currents, hk]
      rw [List.any_cons, List.any_cons, hu, hc, ih sol (k + 1)]
    | .resistor r pr tl =>
      simp only [set_vs_currents, hk]
      rw [List.any_cons, List.any_cons, ih sol k]
    | .currentSource cur =>
      simp only [set_vs_currents, hk]
      rw [List.any_cons, List.any_cons, ih sol k]
    | .gnd =>
      simp only [set_vs_currents, hk]
      rw [List.any_cons, List.any_cons, ih sol k]
    | .capacitor a b tl =>
      simp only [set_vs_currents, hk]
      rw [List.any_cons, List.any_cons, ih sol k]
    | .inductor a b tl =>
      simp only [set_vs_currents, hk]
      rw [List.any_cons, List.any_cons, ih sol k]

theorem setvs_all_dc : ∀ (l : List Component) (sol : List ℚ) (k : Nat),
    (set_vs_currents l sol k).all (fun comp => comp.kind.implements_dc)
      = l.all (fun comp => comp.kind.implements_dc) := by
  intro l
  induction l with
  | nil => intro sol k; rfl
  | cons comp rest ih =>
    intro sol k
    match hk : comp.kind with
    | .voltageSource v cur =>
      have hu : ({ comp with kind := ComponentKind.voltageSource v (sol.getD k 0) } : Component).kind.implements_dc = true := rfl
      have hc : comp.kind.implements_dc = true := by
        rw [hk]
        rfl
      simp only [set_vs_currents, hk]
      rw [List.all_cons, List.all_cons, hu, hc, ih sol (k + 1)]
    | .resistor r pr tl =>
      simp only [set_vs_currents, hk]
      rw [List.all_cons, List.all_cons, ih sol k]
    | .currentSource cur =>
      simp only [set_vs_currents, hk]
      rw [List.all_cons, List.all_cons, ih sol k]
    | .gnd =>
      simp only [set_vs_currents, hk]
      rw [List.all_cons, List.all_cons, ih sol k]
    | .capacitor a b tl =>
      simp only [set_vs_currents, hk]
      rw [List.all_cons, List.all_cons, ih sol k]
    | .inductor a b tl =>
      simp only [set_vs_currents, hk]
      rw [List.all_cons, List.all_cons, ih sol k]

theorem build_setvs (c : Circuit) (sol : List ℚ) :
    build_mna_matrices (with_solved_currents c sol) = build_mna_matrices c := by
  unfold with_solved_currents
  simp only [build_mna_matrices, nodes_to_solve, resistorsOf,
    current_sourcesOf]
  rw [setvs_filter_res, setvs_filter_cs, setvs_vsData]

theorem setvs_find_name : ∀ (l : List Component) (sol : List ℚ) (k : Nat),
    Option.map Component.name ((set_vs_currents l sol k).find?
        (fun comp => comp.get_nodes.any (fun t => t.isNone)))
      = Option.map Component.name (l.find?
        (fun comp => comp.get_nodes.any (fun t => t.isNone))) := by
  intro l
  induction l with
  | nil => intro sol k; rfl
  | cons comp rest ih =>
    intro sol k
    match hk : comp.kind with
    | .voltageSource v cur =>
      have hpredc : comp.get_nodes = [comp.node_plus, comp.node_minus] := by
        unfold Component.get_nodes
        rw [hk]
      cases hval : comp.get_nodes.any (fun t => t.isNone) with
      | true =>
        have hvalu : ({ comp with kind := ComponentKind.voltageSource v (sol.getD k 0) } : Component).get_nodes.any (fun t => t.isNone) = true := by
          rw [hpredc] at hval
          exact hval
        simp only [set_vs_currents, hk]
        rw [@List.find?_cons_of_pos _ (fun comp => comp.get_nodes.any (fun t => t.isNone)) _ (set_vs_currents rest sol (k + 1)) hvalu,
          @List.find?_cons_of_pos _ (fun comp => comp.get_nodes.any (fun t => t.isNone)) _ rest hval]
        rfl
      | false =>
        have hvalu : ({ comp with kind := ComponentKind.voltageSource v (sol.getD k 0) } : Component).get_nodes.any (fun t => t.isNone) = false := by
          rw [hpredc] at hval
          exact hval
        simp only [set_vs_currents, hk]
        rw [@List.find?_cons_of_neg _ (fun comp => comp.get_nodes.any (fun t => t.isNone)) _ (set_vs_currents rest sol (k + 1)) (fun hc => absurd (hvalu.symm.trans hc) (by decide)),
          @List.find?_cons_of_neg _ (fun comp => comp.get_nodes.any (fun t => t.isNone)) _ rest (fun hc => absurd (hval.symm.trans hc) (by decide))]
        exact ih sol (k + 1)
    | .resistor r pr tl =>
      cases hval : comp.get_nodes.any (fun t => t.isNone) with
      | true =>
        simp only [set_vs_currents, hk]
        rw [@List.find?_cons_of_pos _ (fun comp => comp.get_nodes.any (fun t => t.isNone)) _ (set_vs_currents rest sol k) hval,
          @List.find?_cons_of_pos _ (fun comp => comp.get_nodes.any (fun t => t.isNone)) _ rest hval]
      | false =>
        simp only [set_vs_currents, hk]
        rw [@List.find?_cons_of_neg _ (fun comp => comp.get_nodes.any (fun t => t.isNone)) _ (set_vs_currents rest sol k) (fun hc => absurd (hval.symm.trans hc) (by decide)),
          @List.find?_cons_of_neg _ (fun comp => comp.get_nodes.any (fun t => t.isNone)) _ rest (fun hc => absurd (hval.symm.trans hc) (by decide))]
        exact ih sol k
    | .currentSource cur =>
      cases hval : comp.get_nodes.any (fun t => t.isNone) with
      | true =>
        simp only [set_vs_currents, hk]
        rw [@List.find?_cons_of_pos _ (fun comp => comp.get_nodes.any (fun t => t.isNone)) _ (set_vs_currents rest sol k) hval,
          @List.find?_cons_of_pos _ (fun comp => comp.get_nodes.any (fun t => t.isNone)) _ rest hval]
      | false =>
        simp only [set_vs_currents, hk]
        rw [@List.find?_cons_of_neg _ (fun comp => comp.get_nodes.any (fun t => t.isNone)) _ (set_vs_currents rest sol k) (fun hc => absurd (hval.symm.trans hc) (by decide)),
          @List.find?_cons_of_neg _ (fun comp => comp.get_nodes.any (fun t => t.isNone)) _ rest (fun hc => absurd (hval.symm.trans hc) (by decide))]
        exact ih sol k
    | .gnd =>
      cases hval : comp.get_nodes.any (fun t => t.isNone) with
      | true =>
        simp only [set_vs_currents, hk]
        rw [@List.find?_cons_of_pos _ (fun comp => comp.get_nodes.any (fun t => t.isNone)) _ (set_vs_currents rest sol k) hval,
          @List.find?_cons_of_pos _ (fun comp => comp.get_nodes.any (fun t => t.isNone)) _ rest hval]
      | false =>
        simp only [set_vs_currents, hk]
        rw [@List.find?_cons_of_neg _ (fun comp => comp.get_nodes.any (fun t => t.isNone)) _ (set_vs_currents rest sol k) (fun hc => absurd (hval.symm.trans hc) (by decide)),
          @List.find?_cons_of_neg _ (fun comp => comp.get_nodes.any (fun t => t.isNone)) _ rest (fun hc => absurd (hval.symm.trans hc) (by decide))]
        exact ih sol k
    | .capacitor a b tl =>
      cases hval : comp.get_nodes.any (fun t => t.isNone) with
      | true =>
        simp only [set_vs_currents, hk]
        rw [@List.find?_cons_of_pos _ (fun comp => comp.get_nodes.any (fun t => t.isNone)) _ (set_vs_currents rest sol k) hval,
          @List.find?_cons_of_pos _ (fun comp => comp.get_nodes.any (fun t => t.isNone)) _ rest hval]
      | false =>
        simp only [set_vs_currents, hk]
        rw [@List.find?_cons_of_neg _ (fun comp => comp.get_nodes.any (fun t => t.isNone)) _ (set_vs_currents rest sol k) (fun hc => absurd (hval.symm.trans hc) (by decide)),
          @List.find?_cons_of_neg _ (fun comp => comp.get_nodes.any (fun t => t.isNone)) _ rest (fun hc => absurd (hval.symm.trans hc) (by decide))]
        exact ih sol k
    | .inductor a b tl =>
      cases hval : comp.get_nodes.any (fun t => t.isNone) with
      | true =>
        simp only [set_vs_currents, hk]
        rw [@List.find?_cons_of_pos _ (fun comp => comp.get_nodes.any (fun t => t.isNone)) _ (set_vs_currents rest sol k) hval,
          @List.find?_cons_of_pos _ (fun comp => comp.get_nodes.any (fun t => t.isNone)) _ rest hval]
      | false =>
        simp only [set_vs_currents, hk]
        rw [@List.find?_cons_of_neg _ (fun comp => comp.get_nodes.any (fun t => t.isNone)) _ (set_vs_currents rest sol k) (fun hc => absurd (hval.symm.trans hc) (by decide)),
          @List.find?_cons_of_neg _ (fun comp => comp.get_nodes.any (fun t => t.isNone)) _ rest (fun hc => absurd (hval.symm.trans hc) (by decide))]
        exact ih sol k

theorem validate_setvs (c : Circuit) (sol : List ℚ) :
    validate_circuit (with_solved_currents c sol) = validate_circuit c := by
  rcases c with ⟨nm, comps, nds, gr⟩
  have hname := setvs_find_name comps sol
    (build_mna_matrices ⟨nm, comps, nds, gr⟩).n_nodes
  cases gr with
  | none => rfl
  | some g =>
    unfold validate_circuit with_solved_currents
    cases h1 : (set_vs_currents comps sol
        (build_mna_matrices ⟨nm, comps, nds, some g⟩).n_nodes).find?
        (fun comp => comp.get_nodes.any (fun t => t.isNone)) with
    | none =>
      cases h2 : comps.find?
          (fun comp => comp.get_nodes.any (fun t => t.isNone)) with
      | none => rfl
      | some comp2 =>
        rw [h1, h2] at hname
        simp at hname
    | some comp1 =>
      cases h2 : comps.find?
          (fun comp => comp.get_nodes.any (fun t => t.isNone)) with
      | none =>
        rw [h1, h2] at hname
        simp at hname
      | some comp2 =>
        rw [h1, h2] at hname
        simp at hname
        dsimp only
        rw [hname]

theorem analyzeWith_ok (solver : Solver) (c : Circuit)
    (hval : validate_circuit c = .ok true) :
    analyzeWith solver c = analyze_post solver c := by
  unfold analyzeWith
  rw [hval]

theorem analyze_post_ok (solver : Solver) (c : Circuit) (g : Node)
    (sol : List ℚ) (hg : c.ground = some g)
    (hsol : solver (build_mna_matrices c).G (build_mna_matrices c).Ivec
        (build_mna_matrices c).total_size = .ok sol) :
    analyze_post solver c = extract_results c g sol := by
  simp only [analyze_post, hg, hsol]

theorem analyze_post_err (solver : Solver) (c : Circuit) (g : Node)
    (e : PyError) (hg : c.ground = some g)
    (hsol : solver (build_mna_matrices c).G (build_mna_matrices c).Ivec
        (build_mna_matrices c).total_size = .error e) :
    analyze_post solver c
      = (.error (.valueError "Circuit may be invalid or underconstrained"),
         c) := by
  simp only [analyze_post, hg, hsol]

/-- C10: in a validated circuit containing a `Capacitor` or `Inductor`
(a kind whose `get_current` is not overridden and so raises
`NotImplementedError`), once the solver succeeds the result-calculation
loop raises `NotImplementedError`, `analyze` propagates it, and the
voltage-source currents have already been mutated into the circuit
state by the time the exception escapes. -/
theorem c10_reactive_not_implemented (c : Circuit) (g : Node)
    (hval : validate_circuit c = .ok true) (hg : c.ground = some g)
    (hre : has_reactive c = true) (sol : List ℚ)
    (hsol : npLstsq (build_mna_matrices c).G (build_mna_matrices c).Ivec
        (build_mna_matrices c).total_size = .ok sol) :
    (analyze c).1 = .error .notImplementedError
      ∧ (analyze c).2 = with_solved_currents c sol := by
  have h1 : analyze c = extract_results c g sol := by
    unfold analyze
    rw [analyzeWith_ok npLstsq c hval]
    exact analyze_post_ok npLstsq c g sol hg hsol
  have hany : (with_solved_currents c sol).components.any
      (fun comp => !comp.kind.implements_dc) = true := by
    unfold with_solved_currents
    dsimp only
    rw [setvs_any_reactive]
    unfold has_reactive at hre
    exact hre
  have hcalc : calc_results (with_solved_currents c sol).components
      (mk_node_voltages g (nodes_to_solve c) sol)
      = .error .notImplementedError :=
    calc_error _ _ hany
  rw [h1]
  simp [extract_results, hcalc]

/-- Witness for `c10_reactive_not_implemented`: the concrete circuit
`capC` (10 V source n1-gnd plus a capacitor n1-gnd) validates, solves
to `[10, -1/100]`, and `analyze` errors with `NotImplementedError`
while leaving the mutated state behind. -/
theorem c10_witness :
    validate_circuit capC = .ok true
      ∧ capC.ground = some ⟨"gnd"⟩
      ∧ has_reactive capC = true
      ∧ npLstsq (build_mna_matrices capC).G (build_mna_matrices capC).Ivec
          (build_mna_matrices capC).total_size = .ok [10, -1/100]
      ∧ (analyze capC).1 = .error .notImplementedError
      ∧ (analyze capC).2 = with_solved_currents capC [10, -1/100] := by
  have hval : validate_circuit capC = .ok true :=
    validate_ok_of_connected capC ⟨"gnd"⟩ rfl (by decide)
  have hsol : npLstsq (build_mna_matrices capC).G
      (build_mna_matrices capC).Ivec
      (build_mna_matrices capC).total_size = .ok [10, -1/100] := by
    norm_num +decide [capC, Circuit.add_component, Circuit.add_node,
      Circuit.add_ground, build_mna_matrices, nodes_to_solve, vsData,
      resistorsOf, current_sourcesOf, stampResistorsG, stampOneResistor,
      stampCSourcesI, stampOneCSource, stampVSrcs,
      Component.get_conductance, oidx, idxOfN, updG, updV, npLstsq,
      gaussAux, pickPivot, elimRow, dotL, ComponentKind.isResistor,
      ComponentKind.isVoltageSource, ComponentKind.isCurrentSource,
      rangeAsc, List.filter, List.headD, List.getD, List.isEmpty]
  have h := c10_reactive_not_implemented capC ⟨"gnd"⟩ hval rfl (by decide)
    [10, -1/100] hsol
  exact ⟨hval, rfl, by decide, hsol, h.1, h.2⟩

theorem nvFind_entries_mem : ∀ (ns : List Node) (i : Nat) (sol : List ℚ)
    (n : Node), n ∈ ns →
    nvFind (nv_entries i ns sol) (some n)
      = some (sol.getD (i + idxOfN ns n) 0) := by
  intro ns
  induction ns with
  | nil => intro i sol n h; simp at h
  | cons a rest ih =>
    intro i sol n h
    by_cases ha : a = n
    · simp only [nv_entries, nvFind, ha, if_true, ite_true, idxOfN]
      rw [Nat.add_zero]
    · have hmem : n ∈ rest := by
        rcases List.mem_cons.mp h with h1 | h2
        · exact absurd h1.symm ha
        · exact h2
      simp only [nv_entries, nvFind, ha, if_false, ite_false]
      rw [ih (i + 1) sol n hmem]
      simp only [idxOfN, ha, if_false, ite_false]
      have h2 : i + 1 + idxOfN rest n = i + (idxOfN rest n + 1) := by omega
      rw [h2]

theorem nvFind_entries_not_mem : ∀ (ns : List Node) (i : Nat) (sol : List ℚ)
    (n : Node), n ∉ ns → nvFind (nv_entries i ns sol) (some n) = none := by
  intro ns
  induction ns with
  | nil => intro i sol n h; rfl
  | cons a rest ih =>
    intro i sol n h
    have ha : a ≠ n := fun hc => h (hc ▸ List.mem_cons_self a rest)
    have hrest : n ∉ rest := fun hc => h (List.mem_cons_of_mem a hc)
    simp only [nv_entries, nvFind]
    rw [if_neg ha]
    exact ih (i + 1) sol n hrest

theorem nvFind_mk_ground (g : Node) (ns : List Node) (sol : List ℚ) :
    nvFind (mk_node_voltages g ns sol) (some g) = some 0 := by
  unfold mk_node_voltages nvFind
  rw [if_pos rfl]

/-- C5 (amended): for a circuit with a registered ground, all terminals
registered, every component kind implementing DC `get_current`, and a
successful solve, `analyze` returns a node-voltage mapping whose domain
is exactly the registered nodes, with the ground node mapped to `0` and
every non-ground node mapped to its entry of the solution vector at the
index assigned by `nodes_to_solve`. -/
theorem c5_analyze_node_voltages (c : Circuit) (g : Node)
    (hg : c.ground = some g) (hgn : g ∈ c.nodes)
    (hreg : terminals_registered c = true)
    (hdc : c.components.all (fun comp => comp.kind.implements_dc) = true)
    (sol : List ℚ)
    (hsol : npLstsq (build_mna_matrices c).G (build_mna_matrices c).Ivec
        (build_mna_matrices c).total_size = .ok sol) :
    (∃ res, analyze c
        = (.ok (mk_node_voltages g (nodes_to_solve c) sol, res),
           with_solved_currents c sol))
      ∧ nvFind (mk_node_voltages g (nodes_to_solve c) sol) (some g)
          = some 0
      ∧ (∀ n : Node,
          (nvFind (mk_node_voltages g (nodes_to_solve c) sol)
            (some n)).isSome = true ↔ n ∈ c.nodes)
      ∧ ∀ n ∈ c.nodes, some n ≠ c.ground →
          nvFind (mk_node_voltages g (nodes_to_solve c) sol) (some n)
            = some (sol.getD (idxOfN (nodes_to_solve c) n) 0) := by
  have hconn := connected_of_registered c hreg
  have hval := validate_ok_of_connected c g hg hconn
  have hdc2 : (with_solved_currents c sol).components.all
      (fun comp => comp.kind.implements_dc) = true := by
    unfold with_solved_currents
    dsimp only
    rw [setvs_all_dc]
    exact hdc
  obtain ⟨res, hres⟩ := calc_ok
    (mk_node_voltages g (nodes_to_solve c) sol)
    (with_solved_currents c sol).components hdc2
  refine ⟨⟨res, ?_⟩, nvFind_mk_ground g (nodes_to_solve c) sol, ?_, ?_⟩
  · unfold analyze
    rw [analyzeWith_ok npLstsq c hval,
      analyze_post_ok npLstsq c g sol hg hsol]
    simp only [extract_results, hres]
  · intro n
    constructor
    · intro hs
      by_cases hgn2 : n = g
      · rw [hgn2]
        exact hgn
      · simp only [mk_node_voltages, nvFind] at hs
        rw [if_neg (fun hc => hgn2 hc.symm)] at hs
        by_cases hm : n ∈ nodes_to_solve c
        · exact (List.mem_filter.mp hm).1
        · rw [nvFind_entries_not_mem _ _ _ _ hm] at hs
          simp at hs
    · intro hmem
      by_cases hgn2 : n = g
      · subst hgn2
        rw [nvFind_mk_ground]
        rfl
      · have hng : some n ≠ c.ground := by
          rw [hg]
          intro hc
          exact hgn2 (by injection hc)
        have hns : n ∈ nodes_to_solve c := mem_nodes_to_solve c n hmem hng
        simp only [mk_node_voltages, nvFind]
        rw [if_neg (fun hc => hgn2 hc.symm),
          nvFind_entries_mem _ 0 _ _ hns]
        rfl
  · intro n hmem hng
    have hgn2 : n ≠ g := by
      intro hc
      rw [hc, hg] at hng
      exact hng rfl
    have hns : n ∈ nodes_to_solve c := mem_nodes_to_solve c n hmem hng
    simp only [mk_node_voltages, nvFind]
    rw [if_neg (fun hc => hgn2 hc.symm), nvFind_entries_mem _ 0 _ _ hns,
      Nat.zero_add]

/-- C5 counterexample: `capC` has a valid ground and every component
fully connected, yet `analyze` does not return a result for every
node - it raises `NotImplementedError` because the capacitor's
`get_current` is not implemented, so the claim needs the extra
all-kinds-implement-DC and solver-success hypotheses. -/
theorem c5_counterexample :
    capC.ground = some ⟨"gnd"⟩
      ∧ terminals_connected capC = true
      ∧ (analyze capC).1 = .error .notImplementedError := by
  refine ⟨rfl, by decide, ?_⟩
  norm_num +decide [analyze, analyzeWith, analyze_post, extract_results,
    with_solved_currents, validate_circuit, capC,
    Circuit.add_component, Circuit.add_node, Circuit.add_ground,
    build_mna_matrices, nodes_to_solve, vsData, resistorsOf,
    current_sourcesOf, stampResistorsG, stampOneResistor,
    stampCSourcesI, stampOneCSource, stampVSrcs,
    Component.get_conductance, Component.get_nodes,
    Component.get_voltage, Component.get_current, oidx, idxOfN, updG,
    updV, npLstsq, gaussAux, pickPivot, elimRow, dotL, mk_node_voltages,
    nv_entries, set_vs_currents, calc_results, nvFind,
    ComponentKind.isResistor, ComponentKind.isVoltageSource,
    ComponentKind.isCurrentSource, rangeAsc, List.filter, List.find?,
    List.foldl, List.headD, List.getD, List.isEmpty]

/-- Witness for `c5_analyze_node_voltages`: on the voltage divider
`dividerC`, whose solution vector is `[10, 5, -1/200]`, the returned
mapping covers exactly the registered nodes, sends ground to `0` and
each non-ground node to its solution entry. -/
theorem c5_witness :
    dividerC.ground = some ⟨"gnd"⟩
      ∧ (⟨"gnd"⟩ : Node) ∈ dividerC.nodes
      ∧ terminals_registered dividerC = true
      ∧ (dividerC.components.all
          (fun comp => comp.kind.implements_dc)) = true
      ∧ npLstsq (build_mna_matrices dividerC).G
          (build_mna_matrices dividerC).Ivec
          (build_mna_matrices dividerC).total_size
            = .ok [10, 5, -1/200]
      ∧ ((∃ res, analyze dividerC
            = (.ok (mk_node_voltages ⟨"gnd"⟩ (nodes_to_solve dividerC)
                [10, 5, -1/200], res),
               with_solved_currents dividerC [10, 5, -1/200]))
        ∧ nvFind (mk_node_voltages ⟨"gnd"⟩ (nodes_to_solve dividerC)
            [10, 5, -1/200]) (some ⟨"gnd"⟩) = some 0
        ∧ (∀ n : Node,
            (nvFind (mk_node_voltages ⟨"gnd"⟩ (nodes_to_solve dividerC)
              [10, 5, -1/200]) (some n)).isSome = true ↔ n ∈ dividerC.nodes)
        ∧ ∀ n ∈ dividerC.nodes, some n ≠ dividerC.ground →
            nvFind (mk_node_voltages ⟨"gnd"⟩ (nodes_to_solve dividerC)
              [10, 5, -1/200]) (some n)
              = some (([10, 5, -1/200] : List ℚ).getD
                  (idxOfN (nodes_to_solve dividerC) n) 0)) := by
  have hsol : npLstsq (build_mna_matrices dividerC).G
      (build_mna_matrices dividerC).Ivec
      (build_mna_matrices dividerC).total_size = .ok [10, 5, -1/200] := by
    norm_num +decide [dividerC, Circuit.add_component, Circuit.add_node,
      Circuit.add_ground, build_mna_matrices, nodes_to_solve, vsData,
      resistorsOf, current_sourcesOf, stampResistorsG, stampOneResistor,
      stampCSourcesI, stampOneCSource, stampVSrcs,
      Component.get_conductance, oidx, idxOfN, updG, updV, npLstsq,
      gaussAux, pickPivot, elimRow, dotL, ComponentKind.isResistor,
      ComponentKind.isVoltageSource, ComponentKind.isCurrentSource,
      rangeAsc, List.filter, List.headD, List.getD, List.isEmpty]
  exact ⟨rfl, by decide, by decide, by decide, hsol,
    c5_analyze_node_voltages dividerC ⟨"gnd"⟩ rfl (by decide) (by decide)
      (by decide) [10, 5, -1/200] hsol⟩

/-- C7 (amended): a node attached to fewer than two component terminals
in a circuit with ground and all terminals connected makes
`floating_nodes` non-empty (the advisory is emitted), yet
`validate_circuit` still succeeds and analysis proceeds past
validation to the post-validation phase unchanged. Completion of the
analysis additionally requires every component kind to implement DC
`get_current`. -/
theorem c7_floating_nonfatal (c : Circuit) (g : Node) (solver : Solver)
    (hg : c.ground = some g) (hconn : terminals_connected c = true)
    (n : Node) (hmem : n ∈ c.nodes) (hcount : connection_count c n < 2)
    (hng : some n ≠ c.ground) :
    floating_nodes c ≠ []
      ∧ validate_circuit c = .ok true
      ∧ analyzeWith solver c = analyze_post solver c := by
  have hval := validate_ok_of_connected c g hg hconn
  refine ⟨?_, hval, analyzeWith_ok solver c hval⟩
  have hin : n ∈ floating_nodes c := by
    unfold floating_nodes
    rw [List.mem_filter]
    exact ⟨hmem, decide_eq_true ⟨hcount, hng⟩⟩
  exact List.ne_nil_of_mem hin

/-- C7 counterexample: `floatCapC` has a floating node (so the advisory
fires) and passes validation, yet `analyze` does not complete
normally - it raises `NotImplementedError` because of the capacitor,
so the claim's "analysis proceeds" holds only up to the
post-validation phase, not to normal completion. -/
theorem c7_counterexample :
    floating_nodes floatCapC ≠ []
      ∧ floatCapC.ground = some ⟨"gnd"⟩
      ∧ terminals_connected floatCapC = true
      ∧ (analyze floatCapC).1 = .error .notImplementedError := by
  refine ⟨by decide, rfl, by decide, ?_⟩
  norm_num +decide [analyze, analyzeWith, analyze_post, extract_results,
    with_solved_currents, validate_circuit, floatCapC,
    Circuit.add_component, Circuit.add_node, Circuit.add_ground,
    build_mna_matrices, nodes_to_solve, vsData, resistorsOf,
    current_sourcesOf, stampResistorsG, stampOneResistor,
    stampCSourcesI, stampOneCSource, stampVSrcs,
    Component.get_conductance, Component.get_nodes,
    Component.get_voltage, Component.get_current, oidx, idxOfN, updG,
    updV, npLstsq, gaussAux, pickPivot, elimRow, dotL, mk_node_voltages,
    nv_entries, set_vs_currents, calc_results, nvFind,
    ComponentKind.isResistor, ComponentKind.isVoltageSource,
    ComponentKind.isCurrentSource, rangeAsc, List.filter, List.find?,
    List.foldl, List.headD, List.getD, List.isEmpty]

/-- Witness for `c7_floating_nonfatal`: `floatOkC` (divider source plus
a resistor into a dangling node n2) has floating node n2, validates,
and `analyze` completes normally with V(n2) = 10 and zero current
through the dangling resistor. -/
theorem c7_witness :
    floatOkC.ground = some ⟨"gnd"⟩
      ∧ terminals_connected floatOkC = true
      ∧ (⟨"n2"⟩ : Node) ∈ floatOkC.nodes
      ∧ connection_count floatOkC ⟨"n2"⟩ < 2
      ∧ some (⟨"n2"⟩ : Node) ≠ floatOkC.ground
      ∧ (floating_nodes floatOkC ≠ []
          ∧ validate_circuit floatOkC = .ok true
          ∧ analyzeWith npLstsq floatOkC = analyze_post npLstsq floatOkC)
      ∧ (analyze floatOkC).1
          = .ok ([(⟨"gnd"⟩, 0), (⟨"n1"⟩, 10), (⟨"n2"⟩, 10)],
              [("V1", ⟨10, 0, 0⟩), ("R1", ⟨0, 0, 0⟩)]) := by
  refine ⟨rfl, by decide, by decide, by decide, by decide,
    c7_floating_nonfatal floatOkC ⟨"gnd"⟩ npLstsq rfl (by decide)
      ⟨"n2"⟩ (by decide) (by decide) (by decide), ?_⟩
  norm_num +decide [analyze, analyzeWith, analyze_post, extract_results,
    with_solved_currents, validate_circuit, floatOkC,
    Circuit.add_component, Circuit.add_node, Circuit.add_ground,
    build_mna_matrices, nodes_to_solve, vsData, resistorsOf,
    current_sourcesOf, stampResistorsG, stampOneResistor,
    stampCSourcesI, stampOneCSource, stampVSrcs,
    Component.get_conductance, Component.get_nodes,
    Component.get_voltage, Component.get_current, oidx, idxOfN, updG,
    updV, npLstsq, gaussAux, pickPivot, elimRow, dotL, mk_node_voltages,
    nv_entries, set_vs_currents, calc_results, nvFind,
    ComponentKind.isResistor, ComponentKind.isVoltageSource,
    ComponentKind.isCurrentSource, rangeAsc, List.filter, List.find?,
    List.foldl, List.headD, List.getD, List.isEmpty]

/-- C8: (a) when the solver raises `LinAlgError` on the assembled
system, `analyze` converts it to
`ValueError("Circuit may be invalid or underconstrained")` and the
circuit state is untouched; (b) `analyze` consults the solver exactly
once on the assembled system, so two solvers agreeing there give
identical analyses; (c) any solver satisfying the spec-modelled
least-squares contract returns a minimum-norm least-squares solution
of the assembled system; (d) on solver success the analysis is exactly
the extraction phase on the returned vector. -/
theorem c8_solver_failure :
    (∀ (solver : Solver) (c : Circuit) (e : PyError),
        validate_circuit c = .ok true →
        solver (build_mna_matrices c).G (build_mna_matrices c).Ivec
            (build_mna_matrices c).total_size = .error e →
        analyzeWith solver c
          = (.error
              (.valueError "Circuit may be invalid or underconstrained"),
             c))
      ∧ (∀ (s1 s2 : Solver) (c : Circuit),
          s1 (build_mna_matrices c).G (build_mna_matrices c).Ivec
              (build_mna_matrices c).total_size
            = s2 (build_mna_matrices c).G (build_mna_matrices c).Ivec
                (build_mna_matrices c).total_size →
          analyzeWith s1 c = analyzeWith s2 c)
      ∧ (∀ (solver : Solver) (c : Circuit) (x : List ℚ),
          SolverContract solver →
          solver (build_mna_matrices c).G (build_mna_matrices c).Ivec
              (build_mna_matrices c).total_size = .ok x →
          IsMinNormLSQ (build_mna_matrices c).total_size
            (build_mna_matrices c).G (build_mna_matrices c).Ivec x)
      ∧ ∀ (solver : Solver) (c : Circuit) (g : Node) (x : List ℚ),
          validate_circuit c = .ok true → c.ground = some g →
          solver (build_mna_matrices c).G (build_mna_matrices c).Ivec
              (build_mna_matrices c).total_size = .ok x →
          analyzeWith solver c = extract_results c g x := by
  refine ⟨?_, ?_, ?_, ?_⟩
  · intro solver c e hval hsol
    obtain ⟨g, hg⟩ := validate_ok_ground c true hval
    rw [analyzeWith_ok solver c hval]
    exact analyze_post_err solver c g e hg hsol
  · intro s1 s2 c h
    unfold analyzeWith
    cases hv : validate_circuit c with
    | error e => rfl
    | ok b =>
      unfold analyze_post
      cases hgr : c.ground with
      | none => rfl
      | some g =>
        dsimp only
        rw [h]
  · intro solver c x hcontract hsol
    exact hcontract _ _ _ _ hsol
  · intro solver c g x hval hg hsol
    rw [analyzeWith_ok solver c hval]
    exact analyze_post_ok solver c g x hg hsol

/-- Witness for `c8_solver_failure`: on `dividerC`, a solver that
always raises `LinAlgError` makes `analyzeWith` return the
underconstrained `ValueError` with the state untouched, while the
Gaussian-elimination solver succeeds with `[10, 5, -1/200]` and the
analysis equals the extraction phase on that vector. -/
theorem c8_witness :
    validate_circuit dividerC = .ok true
      ∧ (fun _ _ _ => (.error .linAlgError :
            Except PyError (List ℚ)) : Solver)
          (build_mna_matrices dividerC).G (build_mna_matrices dividerC).Ivec
          (build_mna_matrices dividerC).total_size = .error .linAlgError
      ∧ analyzeWith (fun _ _ _ => .error .linAlgError) dividerC
          = (.error
              (.valueError "Circuit may be invalid or underconstrained"),
             dividerC)
      ∧ npLstsq (build_mna_matrices dividerC).G
          (build_mna_matrices dividerC).Ivec
          (build_mna_matrices dividerC).total_size = .ok [10, 5, -1/200]
      ∧ analyzeWith npLstsq dividerC
          = extract_results dividerC ⟨"gnd"⟩ [10, 5, -1/200] := by
  have hval : validate_circuit dividerC = .ok true :=
    validate_ok_of_connected dividerC ⟨"gnd"⟩ rfl (by decide)
  have hsol : npLstsq (build_mna_matrices dividerC).G
      (build_mna_matrices dividerC).Ivec
      (build_mna_matrices dividerC).total_size = .ok [10, 5, -1/200] := by
    norm_num +decide [dividerC, Circuit.add_component, Circuit.add_node,
      Circuit.add_ground, build_mna_matrices, nodes_to_solve, vsData,
      resistorsOf, current_sourcesOf, stampResistorsG, stampOneResistor,
      stampCSourcesI, stampOneCSource, stampVSrcs,
      Component.get_conductance, oidx, idxOfN, updG, updV, npLstsq,
      gaussAux, pickPivot, elimRow, dotL, ComponentKind.isResistor,
      ComponentKind.isVoltageSource, ComponentKind.isCurrentSource,
      rangeAsc, List.filter, List.headD, List.getD, List.isEmpty]
  exact ⟨hval, rfl,
    c8_solver_failure.1 (fun _ _ _ => .error .linAlgError) dividerC
      .linAlgError hval rfl,
    hsol,
    c8_solver_failure.2.2.2 npLstsq dividerC ⟨"gnd"⟩ [10, 5, -1/200]
      hval rfl hsol⟩

theorem nodes_to_solve_setvs (c : Circuit) (sol : List ℚ) :
    nodes_to_solve (with_solved_currents c sol) = nodes_to_solve c := rfl

theorem with_solved_idem (c : Circuit) (sol : List ℚ) :
    with_solved_currents (with_solved_currents c sol) sol
      = with_solved_currents c sol := by
  unfold with_solved_currents
  rw [show (build_mna_matrices { c with components := set_vs_currents c.components sol (build_mna_matrices c).n_nodes }).n_nodes = (build_mna_matrices c).n_nodes from congrArg MNASystem.n_nodes (build_setvs c sol)]
  dsimp only
  rw [setvs_idem]

/-- C9: if `analyze` succeeds on a circuit, then running `analyze` again
on the resulting (mutated) circuit state assembles identical MNA
matrices and returns the identical successful result with the state a
fixed point - the only mutation, writing voltage-source currents, does
not affect assembly, validation, solving or result extraction. -/
theorem c9_idempotent (c : Circuit) (nv : List (Node × ℚ))
    (res : List (String × CompResult)) (c2 : Circuit)
    (h : analyze c = (.ok (nv, res), c2)) :
    build_mna_matrices c2 = build_mna_matrices c
      ∧ analyze c2 = (.ok (nv, res), c2) := by
  unfold analyze analyzeWith at h
  cases hval : validate_circuit c with
  | error e =>
    rw [hval] at h
    simp at h
  | ok b =>
    rw [hval] at h
    dsimp only at h
    unfold analyze_post at h
    cases hgr : c.ground with
    | none =>
      rw [hgr] at h
      simp at h
    | some g =>
      rw [hgr] at h
      dsimp only at h
      cases hsol : npLstsq (build_mna_matrices c).G
          (build_mna_matrices c).Ivec
          (build_mna_matrices c).total_size with
      | error e =>
        rw [hsol] at h
        simp at h
      | ok sol =>
        rw [hsol] at h
        dsimp only at h
        simp only [extract_results] at h
        cases hcalc : calc_results (with_solved_currents c sol).components
            (mk_node_voltages g (nodes_to_solve c) sol) with
        | error e =>
          rw [hcalc] at h
          simp at h
        | ok r =>
          rw [hcalc] at h
          dsimp only at h
          simp only [Prod.mk.injEq, Except.ok.injEq] at h
          obtain ⟨⟨hnv, hres⟩, hc2⟩ := h
          subst hnv
          subst hres
          subst hc2
          constructor
          · exact build_setvs c sol
          · have hval2 : validate_circuit (with_solved_currents c sol)
                = .ok b := by
              rw [validate_setvs c sol]
              exact hval
            have hgr2 : (with_solved_currents c sol).ground = some g := hgr
            unfold analyze analyzeWith
            rw [hval2]
            dsimp only
            unfold analyze_post
            rw [hgr2]
            dsimp only
            rw [show (build_mna_matrices (with_solved_currents c sol)).G
                = (build_mna_matrices c).G from
                congrArg MNASystem.G (build_setvs c sol),
              show (build_mna_matrices (with_solved_currents c sol)).Ivec
                = (build_mna_matrices c).Ivec from
                congrArg MNASystem.Ivec (build_setvs c sol),
              show (build_mna_matrices
                  (with_solved_currents c sol)).total_size
                = (build_mna_matrices c).total_size from
                congrArg MNASystem.total_size (build_setvs c sol),
              hsol]
            dsimp only
            unfold extract_results
            rw [with_solved_idem c sol, nodes_to_solve_setvs c sol]
            simp only [hcalc]

/-- Witness for `c9_idempotent`: analysing the voltage divider
`dividerC` succeeds, and re-analysing the mutated circuit
`with_solved_currents dividerC [10, 5, -1/200]` assembles the same
matrices and reproduces the identical output with the state
unchanged. -/
theorem c9_witness :
    analyze dividerC
        = (.ok ([(⟨"gnd"⟩, 0), (⟨"n1"⟩, 10), (⟨"n2"⟩, 5)],
            [("V1", ⟨10, -1/200, -1/20⟩), ("R1", ⟨5, 1/200, 1/40⟩),
             ("R2", ⟨5, 1/200, 1/40⟩)]),
           with_solved_currents dividerC [10, 5, -1/200])
      ∧ build_mna_matrices (with_solved_currents dividerC [10, 5, -1/200])
          = build_mna_matrices dividerC
      ∧ analyze (with_solved_currents dividerC [10, 5, -1/200])
          = (.ok ([(⟨"gnd"⟩, 0), (⟨"n1"⟩, 10), (⟨"n2"⟩, 5)],
              [("V1", ⟨10, -1/200, -1/20⟩), ("R1", ⟨5, 1/200, 1/40⟩),
               ("R2", ⟨5, 1/200, 1/40⟩)]),
             with_solved_currents dividerC [10, 5, -1/200]) := by
  have h : analyze dividerC
      = (.ok ([(⟨"gnd"⟩, 0), (⟨"n1"⟩, 10), (⟨"n2"⟩, 5)],
          [("V1", ⟨10, -1/200, -1/20⟩), ("R1", ⟨5, 1/200, 1/40⟩),
           ("R2", ⟨5, 1/200, 1/40⟩)]),
         with_solved_currents dividerC [10, 5, -1/200]) := by
    norm_num +decide [analyze, analyzeWith, analyze_post, extract_results,
      with_solved_currents, validate_circuit, dividerC,
      Circuit.add_component, Circuit.add_node, Circuit.add_ground,
      build_mna_matrices, nodes_to_solve, vsData, resistorsOf,
      current_sourcesOf, stampResistorsG, stampOneResistor,
      stampCSourcesI, stampOneCSource, stampVSrcs,
      Component.get_conductance, Component.get_nodes,
      Component.get_voltage, Component.get_current, oidx, idxOfN, updG,
      updV, npLstsq, gaussAux, pickPivot, elimRow, dotL, mk_node_voltages,
      nv_entries, set_vs_currents, calc_results, nvFind,
      ComponentKind.isResistor, ComponentKind.isVoltageSource,
      ComponentKind.isCurrentSource, rangeAsc, List.filter, List.find?,
      List.foldl, List.headD, List.getD, List.isEmpty]
  have h2 := c9_idempotent dividerC _ _ _ h
  exact ⟨h, h2.1, h2.2⟩
